import Mathlib

/-!
Verification of the image-lifecycle core of the Private-Registry-Image-Manager
CLI: the reconciliation engine (`gatherAllRelevantImages`), the cleanup
orchestrator (`performCleanup`, `cleanSpecificTag`, the `clean` command `run`
flow), the tracking store (`ImageTracker`) and the preference store
(`CleanPreferencesManager`).

The TypeScript source is shallowly embedded:
* JavaScript objects / `Map`s (which have unique keys and preserve insertion
  order, `set` updating in place) become association lists
  `List (String × α)` with `objLookup` / `objSet` / `objDelete`.
* The JS falsy-aware `x || y` on optional strings becomes `jsOrS`.
* Asynchronous engine calls (`docker ...`) are parameters: the live container
  query is a function `containersOf : String → List String`, image existence
  an `imageExists : String → Bool`, and destructive calls are recorded as
  explicit `Effect` events in the order the code issues them.
* The JS `Date` built-in is modelled by `jsDateParse`, a parser for the
  ISO-8601 `toISOString` format (`YYYY-MM-DDTHH:MM:SS.mmmZ`, years ≥ 1970,
  the format every timestamp this program persists has); every other string
  (for example the `docker images` human-readable `CreatedSince` output such
  as "2 days ago") yields `none`, the counterpart of an Invalid Date whose
  `getTime()` is NaN.  Comparator arithmetic on NaN is modelled by `Option`
  propagation, and `Array.prototype.sort` (a stable sort) by `jsSort`, a
  stable insertion sort; a comparator result that is NaN is treated as 0
  (neither smaller nor greater), exactly as the engine treats it.
-/

/-- JS `a || b` where `a : string | undefined` and `b : string`: `b` whenever
`a` is `undefined` or the falsy empty string. -/
def jsOrS (a : Option String) (b : String) : String :=
  match a with
  | some s => if s = "" then b else s
  | none => b

/-- JS truthiness of a `string | undefined` value. -/
def jsTruthy (a : Option String) : Bool :=
  match a with
  | some s => s ≠ ""
  | none => false

/-- JS `String.prototype.startsWith` (code-unit prefix test). -/
def jsStartsWith (s pre : String) : Bool :=
  pre.data.isPrefixOf s.data

/-- JS `String.prototype.includes` (code-unit substring test). -/
def jsIncludes (s sub : String) : Bool :=
  decide (sub.data <:+: s.data)

/-! ### The JS `Date` built-in on the timestamp strings this program uses -/

def isLeapYear (y : Nat) : Bool :=
  y % 4 = 0 && (y % 100 ≠ 0 || y % 400 = 0)

def daysInMonth (y m : Nat) : Nat :=
  if m = 2 then (if isLeapYear y then 29 else 28)
  else if m = 4 ∨ m = 6 ∨ m = 9 ∨ m = 11 then 30
  else 31

/-- Days from 1970-01-01 to the start of year `y` (for `y ≥ 1970`). -/
def daysBeforeYear (y : Nat) : Nat :=
  (List.range (y - 1970)).foldl (fun acc i => acc + (if isLeapYear (1970 + i) then 366 else 365)) 0

/-- Days from the start of year `y` to the start of month `m` (1-based). -/
def daysBeforeMonth (y m : Nat) : Nat :=
  (List.range (m - 1)).foldl (fun acc i => acc + daysInMonth y (i + 1)) 0

def digitVal (c : Char) : Option Nat :=
  if c.isDigit then some (c.toNat - 48) else none

def digits2 (a b : Char) : Option Nat := do
  pure ((← digitVal a) * 10 + (← digitVal b))

def digits4 (a b c d : Char) : Option Nat := do
  pure ((← digitVal a) * 1000 + (← digitVal b) * 100 + (← digitVal c) * 10 + (← digitVal d))

/-- Model of `new Date(s).getTime()` for the string shapes this program
produces: a 24-character ISO-8601 UTC timestamp (`Date.prototype.toISOString`
output, year ≥ 1970) parses to its epoch-milliseconds; any other string —
notably the human-readable `docker images` `CreatedSince` values such as
"2 days ago" or "unknown" — is an Invalid Date, i.e. NaN, modelled as
`none`. -/
def jsDateParse (s : String) : Option Int :=
  match s.data with
  | [y1, y2, y3, y4, '-', m1, m2, '-', d1, d2, 'T',
     h1, h2, ':', n1, n2, ':', s1, s2, '.', f1, f2, f3, 'Z'] => do
    let y ← digits4 y1 y2 y3 y4
    let mo ← digits2 m1 m2
    let d ← digits2 d1 d2
    let h ← digits2 h1 h2
    let mi ← digits2 n1 n2
    let se ← digits2 s1 s2
    let f ← do pure ((← digitVal f1) * 100 + (← digitVal f2) * 10 + (← digitVal f3))
    if 1970 ≤ y ∧ 1 ≤ mo ∧ mo ≤ 12 ∧ 1 ≤ d ∧ d ≤ daysInMonth y mo ∧ h ≤ 23 ∧ mi ≤ 59 ∧ se ≤ 59 then
      let days := daysBeforeYear y + daysBeforeMonth y mo + (d - 1)
      pure (Int.ofNat (((days * 24 + h) * 60 + mi) * 60 + se) * 1000 + Int.ofNat f)
    else none
  | _ => none

/-! ### Association-list model of JS objects and `Map`s

JS objects and `Map`s have unique keys; assignment to an existing key keeps
its position, assignment to a fresh key appends, `delete` removes the key.
`objSet` mirrors this (when applied to a list with duplicate keys — which the
JS values cannot have — it updates every occurrence, keeping lookups exact). -/

def objLookup : List (String × α) → String → Option α
  | [], _ => none
  | kv :: m, k => if kv.1 = k then some kv.2 else objLookup m k

def objHas : List (String × α) → String → Bool
  | [], _ => false
  | kv :: m, k => decide (kv.1 = k) || objHas m k

def objSet (m : List (String × α)) (k : String) (v : α) : List (String × α) :=
  if objHas m k then
    m.map (fun kv => if kv.1 = k then (k, v) else kv)
  else
    m ++ [(k, v)]

def objDelete : List (String × α) → String → List (String × α)
  | [], _ => []
  | kv :: m, k => if kv.1 = k then objDelete m k else kv :: objDelete m k

theorem objLookup_nil (k : String) : objLookup ([] : List (String × α)) k = none := rfl

theorem objLookup_cons (kv : String × α) (m : List (String × α)) (k : String) :
    objLookup (kv :: m) k = if kv.1 = k then some kv.2 else objLookup m k := rfl

theorem objLookup_append (m₁ m₂ : List (String × α)) (k : String) :
    objLookup (m₁ ++ m₂) k = ((objLookup m₁ k).or (objLookup m₂ k)) := by
  induction m₁ with
  | nil => simp [objLookup_nil, Option.or]
  | cons kv m ih =>
    rw [List.cons_append, objLookup_cons, objLookup_cons]
    by_cases h : kv.1 = k <;> simp [h, ih, Option.or]

theorem objLookup_none_of_objHas_false (m : List (String × α)) (k : String)
    (h : objHas m k = false) : objLookup m k = none := by
  induction m with
  | nil => rfl
  | cons kv rest ih =>
    simp only [objHas, Bool.or_eq_false_iff, decide_eq_false_iff_not] at h
    rw [objLookup_cons, if_neg h.1]
    exact ih h.2

theorem objLookup_mapReplace_self (m : List (String × α)) (k : String) (v : α)
    (h : objHas m k = true) :
    objLookup (m.map (fun kv => if kv.1 = k then (k, v) else kv)) k = some v := by
  induction m with
  | nil => simp [objHas] at h
  | cons kv rest ih =>
    by_cases hk : kv.1 = k
    · simp [objLookup_cons, hk]
    · simp only [objHas, Bool.or_eq_true, decide_eq_true_eq] at h
      rcases h with h | h
      · exact absurd h hk
      · simp only [List.map_cons, hk, if_false]
        rw [objLookup_cons, if_neg hk]
        exact ih h

theorem objLookup_mapReplace_ne (m : List (String × α)) (k k' : String) (v : α)
    (h : k' ≠ k) :
    objLookup (m.map (fun kv => if kv.1 = k' then (k', v) else kv)) k = objLookup m k := by
  induction m with
  | nil => rfl
  | cons kv rest ih =>
    by_cases hk : kv.1 = k'
    · simp only [List.map_cons, hk, if_true]
      rw [objLookup_cons, objLookup_cons, if_neg h, if_neg (hk ▸ h)]
      exact ih
    · simp only [List.map_cons, hk, if_false]
      rw [objLookup_cons, objLookup_cons]
      by_cases hke : kv.1 = k <;> simp [hke, ih]

theorem objLookup_objSet_self (m : List (String × α)) (k : String) (v : α) :
    objLookup (objSet m k v) k = some v := by
  unfold objSet
  by_cases h : objHas m k
  · rw [if_pos h]
    exact objLookup_mapReplace_self m k v h
  · rw [if_neg h]
    rw [objLookup_append, objLookup_none_of_objHas_false m k (by simpa using h)]
    simp [objLookup_cons, Option.or]

theorem objLookup_objSet_ne (m : List (String × α)) (k k' : String) (v : α) (h : k' ≠ k) :
    objLookup (objSet m k' v) k = objLookup m k := by
  unfold objSet
  by_cases ha : objHas m k'
  · rw [if_pos ha]
    exact objLookup_mapReplace_ne m k k' v h
  · rw [if_neg ha, objLookup_append]
    have h1 : objLookup [(k', v)] k = none := by
      rw [objLookup_cons, if_neg h]
      rfl
    rw [h1]
    cases objLookup m k <;> rfl

theorem mem_of_objLookup_eq_some (m : List (String × α)) (k : String) (v : α)
    (h : objLookup m k = some v) : (k, v) ∈ m := by
  induction m with
  | nil => simp [objLookup] at h
  | cons kv rest ih =>
    rw [objLookup_cons] at h
    by_cases hk : kv.1 = k
    · rw [if_pos hk] at h
      have : (k, v) = kv := by
        cases kv
        simp only [Option.some.injEq] at h
        simp_all
      rw [this]
      exact List.mem_cons_self kv rest
    · rw [if_neg hk] at h
      exact List.mem_cons_of_mem _ (ih h)

theorem mem_objSet (m : List (String × α)) (k : String) (v : α) (kv : String × α)
    (h : kv ∈ objSet m k v) : kv ∈ m ∨ kv = (k, v) := by
  unfold objSet at h
  by_cases ha : objHas m k
  · rw [if_pos ha] at h
    rcases List.mem_map.mp h with ⟨kv', hkv', heq⟩
    by_cases hk : kv'.1 = k
    · rw [if_pos hk] at heq
      right
      exact heq.symm
    · rw [if_neg hk] at heq
      left
      exact heq ▸ hkv'
  · rw [if_neg ha] at h
    rcases List.mem_append.mp h with h | h
    · exact Or.inl h
    · right
      simpa using h

theorem objSet_map_fst (m : List (String × α)) (k : String) (v : α) :
    (objSet m k v).map Prod.fst
      = if objHas m k then m.map Prod.fst else m.map Prod.fst ++ [k] := by
  unfold objSet
  by_cases ha : objHas m k
  · rw [if_pos ha, if_pos ha, List.map_map]
    apply List.map_congr_left
    intro kv _
    by_cases hk : kv.1 = k <;> simp [hk]
  · rw [if_neg ha, if_neg ha]
    simp

theorem objHas_iff_mem_map_fst (m : List (String × α)) (k : String) :
    objHas m k = true ↔ k ∈ m.map Prod.fst := by
  induction m with
  | nil => simp [objHas]
  | cons kv rest ih =>
    simp only [objHas, Bool.or_eq_true, decide_eq_true_eq, List.map_cons, List.mem_cons, ih]
    constructor
    · rintro (h | h)
      · exact Or.inl h.symm
      · exact Or.inr h
    · rintro (h | h)
      · exact Or.inl h.symm
      · exact Or.inr h

theorem mem_map_fst_objSet (m : List (String × α)) (k k' : String) (v : α) :
    k' ∈ (objSet m k v).map Prod.fst ↔ k' ∈ m.map Prod.fst ∨ k' = k := by
  rw [objSet_map_fst]
  by_cases ha : objHas m k
  · rw [if_pos ha]
    constructor
    · exact Or.inl
    · rintro (h | rfl)
      · exact h
      · exact (objHas_iff_mem_map_fst m k').mp ha
  · rw [if_neg ha]
    simp

theorem nodup_map_fst_objSet (m : List (String × α)) (k : String) (v : α)
    (h : (m.map Prod.fst).Nodup) : ((objSet m k v).map Prod.fst).Nodup := by
  rw [objSet_map_fst]
  by_cases ha : objHas m k
  · rwa [if_pos ha]
  · rw [if_neg ha]
    have hk : k ∉ m.map Prod.fst := fun hmem =>
      by simp [(objHas_iff_mem_map_fst m k).mpr hmem] at ha
    simp [List.nodup_append, h, hk]

theorem objLookup_objDelete_self (m : List (String × α)) (k : String) :
    objLookup (objDelete m k) k = none := by
  induction m with
  | nil => rfl
  | cons kv rest ih =>
    unfold objDelete
    by_cases hk : kv.1 = k
    · rw [if_pos hk]
      exact ih
    · rw [if_neg hk, objLookup_cons, if_neg hk]
      exact ih

theorem objLookup_objDelete_ne (m : List (String × α)) (k k' : String) (h : k' ≠ k) :
    objLookup (objDelete m k') k = objLookup m k := by
  induction m with
  | nil => rfl
  | cons kv rest ih =>
    unfold objDelete
    by_cases hk : kv.1 = k'
    · rw [if_pos hk, objLookup_cons]
      have : kv.1 ≠ k := by rw [hk]; exact h
      rw [if_neg this]
      exact ih
    · rw [if_neg hk, objLookup_cons, objLookup_cons]
      by_cases hke : kv.1 = k <;> simp [hke, ih]

theorem mem_objDelete (m : List (String × α)) (k : String) (kv : String × α) :
    kv ∈ objDelete m k ↔ kv ∈ m ∧ kv.1 ≠ k := by
  induction m with
  | nil => simp [objDelete]
  | cons kv' rest ih =>
    unfold objDelete
    by_cases hk : kv'.1 = k
    · rw [if_pos hk, ih]
      constructor
      · rintro ⟨h1, h2⟩
        exact ⟨List.mem_cons_of_mem _ h1, h2⟩
      · rintro ⟨h1, h2⟩
        rcases List.mem_cons.mp h1 with rfl | h1
        · exact absurd hk h2
        · exact ⟨h1, h2⟩
    · rw [if_neg hk]
      constructor
      · intro h1
        rcases List.mem_cons.mp h1 with rfl | h1
        · exact ⟨List.mem_cons_self _ _, hk⟩
        · rcases ih.mp h1 with ⟨h2, h3⟩
          exact ⟨List.mem_cons_of_mem _ h2, h3⟩
      · rintro ⟨h1, h2⟩
        rcases List.mem_cons.mp h1 with rfl | h1
        · exact List.mem_cons_self _ _
        · exact List.mem_cons_of_mem _ (ih.mpr ⟨h1, h2⟩)

/-! ### `Array.prototype.sort`: a stable sort driven by a Bool comparator

`jsCmpLe t a b` is "the comparator does not order `a` strictly after `b`":
the JS comparator here always has the shape `t(b) - t(a)` for a possibly-NaN
numeric key `t`; NaN results are neither `< 0` nor `> 0`, so the sort treats
the pair as equal. -/

def jsCmpLe (t : α → Option Int) (a b : α) : Bool :=
  match t b, t a with
  | some tb, some ta => decide (tb - ta ≤ 0)
  | _, _ => true

def jsInsert (le : α → α → Bool) (x : α) : List α → List α
  | [] => [x]
  | y :: ys => if le x y then x :: y :: ys else y :: jsInsert le x ys

def jsSort (le : α → α → Bool) : List α → List α
  | [] => []
  | x :: xs => jsInsert le x (jsSort le xs)

theorem jsInsert_perm (le : α → α → Bool) (x : α) (l : List α) :
    List.Perm (jsInsert le x l) (x :: l) := by
  induction l with
  | nil => exact List.Perm.refl _
  | cons y ys ih =>
    unfold jsInsert
    by_cases h : le x y
    · rw [if_pos h]
    · rw [if_neg h]
      exact List.Perm.trans (List.Perm.cons y ih) (List.Perm.swap x y ys)

theorem jsSort_perm (le : α → α → Bool) (l : List α) : List.Perm (jsSort le l) l := by
  induction l with
  | nil => exact List.Perm.refl _
  | cons x xs ih =>
    exact List.Perm.trans (jsInsert_perm le x (jsSort le xs)) (List.Perm.cons x ih)

theorem mem_jsSort (le : α → α → Bool) (l : List α) (a : α) :
    a ∈ jsSort le l ↔ a ∈ l :=
  (jsSort_perm le l).mem_iff

theorem jsInsert_pairwise (le : α → α → Bool) (x : α) (l : List α)
    (hl : l.Pairwise (fun a b => le a b = true))
    (htot : ∀ a ∈ l, le x a = true ∨ le a x = true)
    (htrans : ∀ a ∈ l, ∀ b ∈ l, le x a = true → le a b = true → le x b = true) :
    (jsInsert le x l).Pairwise (fun a b => le a b = true) := by
  induction l with
  | nil => simp [jsInsert]
  | cons y ys ih =>
    unfold jsInsert
    by_cases h : le x y
    · rw [if_pos h]
      refine List.Pairwise.cons ?_ hl
      intro b hb
      rcases List.mem_cons.mp hb with rfl | hb'
      · exact h
      · rcases List.pairwise_cons.mp hl with ⟨hy, _⟩
        exact htrans y (List.mem_cons_self y ys) b (List.mem_cons_of_mem y hb') h (hy b hb')
    · rw [if_neg h]
      rcases List.pairwise_cons.mp hl with ⟨hy, hys⟩
      refine List.Pairwise.cons ?_ ?_
      · intro b hb
        rw [(jsInsert_perm le x ys).mem_iff] at hb
        rcases List.mem_cons.mp hb with rfl | hb'
        · rcases htot y (List.mem_cons_self y ys) with h' | h'
          · exact absurd h' h
          · exact h'
        · exact hy b hb'
      · refine ih hys ?_ ?_
        · intro a ha
          exact htot a (List.mem_cons_of_mem y ha)
        · intro a ha b hb
          exact htrans a (List.mem_cons_of_mem y ha) b (List.mem_cons_of_mem y hb)

theorem jsSort_pairwise (le : α → α → Bool) (l : List α)
    (htot : ∀ a ∈ l, ∀ b ∈ l, le a b = true ∨ le b a = true)
    (htrans : ∀ a ∈ l, ∀ b ∈ l, ∀ c ∈ l, le a b = true → le b c = true → le a c = true) :
    (jsSort le l).Pairwise (fun a b => le a b = true) := by
  induction l with
  | nil => simp [jsSort]
  | cons x xs ih =>
    unfold jsSort
    have hmem : ∀ a ∈ jsSort le xs, a ∈ xs := fun a ha => (mem_jsSort le xs a).mp ha
    refine jsInsert_pairwise le x (jsSort le xs) ?_ ?_ ?_
    · refine ih ?_ ?_
      · intro a ha b hb
        exact htot a (List.mem_cons_of_mem x ha) b (List.mem_cons_of_mem x hb)
      · intro a ha b hb c hc
        exact htrans a (List.mem_cons_of_mem x ha) b (List.mem_cons_of_mem x hb)
          c (List.mem_cons_of_mem x hc)
    · intro a ha
      exact htot x (List.mem_cons_self x xs) a (List.mem_cons_of_mem x (hmem a ha))
    · intro a ha b hb
      exact htrans x (List.mem_cons_self x xs) a (List.mem_cons_of_mem x (hmem a ha))
        b (List.mem_cons_of_mem x (hmem b hb))

/-! ### Data model (src/utils/image-tracker.ts, src/utils/docker.ts, clean command) -/

/-- The `TrackedImage` record (image-tracker.ts lines 6-15). -/
structure TrackedImage where
  imageName : String
  tag : String
  fullImageName : String
  projectPath : String
  builtAt : String
  size : Option String := none
  dockerfile : Option String := none
  buildArgs : List (String × String) := []
deriving Repr, DecidableEq

/-- One element of `DockerClient.getAllProjectImages`'s result
(docker.ts lines 302-338). -/
structure DockerImage where
  image : String
  tag : String
  size : String
  created : String
deriving Repr, DecidableEq

/-- The `ImageToClean` record (clean command lines 13-20): the spec's `CleanupTarget`. -/
structure ImageToClean where
  image : String
  tag : String
  size : Option String := none
  created : Option String := none
  isTracked : Bool
  containers : List String
deriving Repr, DecidableEq

/-- One engine / store call the cleanup flow issues, in program order.
Removal events carry the engine outcome (success or failure), which the code
ignores (`docker.ts` catches and swallows all `rm`/`rmi` errors), so outcomes
are supplied by oracles and provably never influence the trace. -/
inductive Effect where
  | removeContainer (id : String) (ok : Bool)
  | removeImage (ref : String) (ok : Bool)
  | trackRemove (projectPath imageName tag : String)
  | prefSave (projectPath imageName : String) (excluded : List String)
  | prefSweepStale
deriving Repr, DecidableEq

/-! ### `DockerClient.getAllProjectImages` (docker.ts lines 302-338) -/

/-- JS `String.prototype.split` with a single-character separator
(`"a::b".split(':')` is `["a", "", "b"]`, `"".split(':')` is `[""]`). -/
def splitCharAux (sep : Char) : List Char → List Char → List String
  | [], acc => [String.mk acc.reverse]
  | c :: cs, acc =>
    if c = sep then String.mk acc.reverse :: splitCharAux sep cs []
    else splitCharAux sep cs (c :: acc)

def splitOnChar (sep : Char) (s : String) : List String :=
  splitCharAux sep s.data []

/-- JS `String.prototype.trim`: strip whitespace from both ends. -/
def jsTrim (s : String) : String :=
  String.mk (((s.data.dropWhile Char.isWhitespace).reverse.dropWhile Char.isWhitespace).reverse)

/-- Parse one line of `docker images --format {{.Repository}}:{{.Tag}}\t{{.Size}}\t{{.CreatedSince}}`
output (docker.ts lines 319-329). -/
def parseImageLine (line : String) : DockerImage :=
  let parts := splitOnChar '\t' line
  let repoTag := parts.headD ""
  let segs := splitOnChar ':' repoTag
  { image := repoTag
    tag := jsOrS segs[1]? "latest"
    size := jsOrS parts[1]? "unknown"
    created := jsOrS parts[2]? "unknown" }

/-- The per-repository listing pipeline of `getAllProjectImages`
(docker.ts lines 315-329): split stdout into lines, trim, drop empty lines
and lines containing `:<none>`, parse the rest. -/
def parseImagesOutput (stdout : String) : List DockerImage :=
  (((splitOnChar '\n' stdout).map jsTrim).filter
    (fun line => decide (line ≠ "") && ! jsIncludes line ":<none>")).map parseImageLine

/-- Model of `getAllProjectImages` (docker.ts lines 302-338): the two repository scopes
queried in order; `stdoutOf` models the engine's stdout for each scope. -/
def getAllProjectImages (stdoutOf : String → String) (localRepo registryRepo : String) :
    List DockerImage :=
  parseImagesOutput (stdoutOf localRepo) ++ parseImagesOutput (stdoutOf registryRepo)

/-! ### The reconciliation engine: `CleanCommand.gatherAllRelevantImages`
(clean command lines 108-169) -/

/-- The map key a tracked entry is inserted under (line 127). -/
def trackedImageKey (localRepo : String) (t : TrackedImage) : String :=
  localRepo ++ ":" ++ t.tag

/-- The `ImageToClean` built from a tracked entry (lines 128-137). -/
def trackedTarget (localRepo : String) (containersOf : String → List String)
    (t : TrackedImage) : ImageToClean :=
  { image := trackedImageKey localRepo t
    tag := t.tag
    size := t.size
    created := some t.builtAt
    isTracked := true
    containers := containersOf (trackedImageKey localRepo t) }

/-- Lines 126-138: insert every tracked entry into the merge map. -/
def addTracked (localRepo : String) (containersOf : String → List String)
    (m : List (String × ImageToClean)) (t : TrackedImage) : List (String × ImageToClean) :=
  objSet m (trackedImageKey localRepo t) (trackedTarget localRepo containersOf t)

/-- Lines 144-160: the value stored for a live image, given what the merge map
currently holds for its reference.  When the reference was already present
(i.e. also tracked), missing size/created fields are filled from the live
entry via JS `||` and the container list is overwritten with the freshly
queried one; otherwise a new untracked target is inserted. -/
def mergedVal (containersOf : String → List String) (prev : Option ImageToClean)
    (d : DockerImage) : ImageToClean :=
  match prev with
  | some existing =>
    { existing with
      size := some (jsOrS existing.size d.size)
      created := some (jsOrS existing.created d.created)
      containers := containersOf d.image }
  | none =>
    { image := d.image
      tag := d.tag
      size := some d.size
      created := some d.created
      isTracked := false
      containers := containersOf d.image }

/-- Lines 141-161: merge one live image listing entry into the map. -/
def mergeDockerImage (containersOf : String → List String)
    (m : List (String × ImageToClean)) (d : DockerImage) : List (String × ImageToClean) :=
  objSet m d.image (mergedVal containersOf (objLookup m d.image) d)

/-- Model of `new Date(a.created || 0).getTime()` (lines 165-166): a missing or empty
`created` field is epoch zero; otherwise the `Date` model parses it, `none`
standing for NaN. -/
def jsTime (dateParse : String → Option Int) (created : Option String) : Option Int :=
  match created with
  | some s => if s = "" then some 0 else dateParse s
  | none => some 0

/-- The sort comparator of lines 163-168 (`dateB.getTime() - dateA.getTime()`,
newest first), as the "does not order `a` after `b`" Bool relation. -/
def createdCmpLe (dateParse : String → Option Int) (a b : ImageToClean) : Bool :=
  jsCmpLe (fun x => jsTime dateParse x.created) a b

/-- Model of `CleanCommand.gatherAllRelevantImages` (lines 108-169): fold the tracked
entries then the live listing into the merge map, then emit its values sorted
by creation time, newest first. -/
def gatherAllRelevantImages (dateParse : String → Option Int)
    (containersOf : String → List String) (localRepo : String)
    (tracked : List TrackedImage) (dockerImages : List DockerImage) : List ImageToClean :=
  let m1 := tracked.foldl (addTracked localRepo containersOf) []
  let m2 := dockerImages.foldl (mergeDockerImage containersOf) m1
  jsSort (createdCmpLe dateParse) (m2.map (fun kv => kv.2))

/-! ### The cleanup orchestrator: `CleanCommand.performCleanup`
(clean command lines 222-252) -/

/-- Model of `performCleanup`: all container removals (first loop, lines 226-231), then
all image removals (second loop, lines 234-237), then the tracking-store
removals for tracked targets (third loop, lines 240-244). -/
def performCleanup (projectPath localRepo : String) (cOk iOk : String → Bool)
    (selectedImages : List ImageToClean) : List Effect :=
  (selectedImages.foldr (fun img acc =>
      (if img.containers.isEmpty then []
       else img.containers.map (fun c => Effect.removeContainer c (cOk c))) ++ acc) [])
  ++ selectedImages.map (fun img => Effect.removeImage img.image (iOk img.image))
  ++ (selectedImages.foldr (fun img acc =>
      (if img.isTracked then [Effect.trackRemove projectPath localRepo img.tag] else []) ++ acc) [])

/-- Lines 209-211: the tags the user left unchecked become the new exclusion
set (`!selectedImages.find(sel => sel.tag === img.tag)`). -/
def newExcludedTags (imagesToClean selectedImages : List ImageToClean) : List String :=
  (imagesToClean.filter
    (fun img => ! selectedImages.any (fun sel => sel.tag == img.tag))).map (fun img => img.tag)

/-- Model of `selectImagesInteractively` (lines 171-220): the prompt result is the
caller-supplied `userSelection`; afterwards the complement's tags are always
persisted as the new exclusion set.  Returns the store effect and the
selection the caller gets back. -/
def selectImagesInteractively (projectPath localRepo : String)
    (imagesToClean userSelection : List ImageToClean) : List Effect × List ImageToClean :=
  ([Effect.prefSave projectPath localRepo (newExcludedTags imagesToClean userSelection)],
   userSelection)

/-- The full-project branch of `CleanCommand.run` (lines 25-71, tag option
absent): stale-preference sweep, gather, early exit when nothing found,
selection (all of it with `--yes`, otherwise the interactive result), early
exit on empty selection, then `performCleanup`. -/
def runFullProject (dateParse : String → Option Int)
    (containersOf : String → List String) (projectPath localRepo : String)
    (tracked : List TrackedImage) (dockerImages : List DockerImage)
    (yes : Bool) (userSelection : List ImageToClean) (cOk iOk : String → Bool) : List Effect :=
  let imagesToClean := gatherAllRelevantImages dateParse containersOf localRepo tracked dockerImages
  Effect.prefSweepStale ::
    (if imagesToClean.isEmpty then []
     else
       let sel := if yes then ([], imagesToClean)
                  else selectImagesInteractively projectPath localRepo imagesToClean userSelection
       sel.1 ++
         (if sel.2.isEmpty then []
          else performCleanup projectPath localRepo cOk iOk sel.2))

/-! ### Explicit-tag mode: `CleanCommand.cleanSpecificTag` (lines 73-106) -/

structure CleanTagResult where
  normalizedTag : String
  existingTargets : List String
  effects : List Effect
deriving Repr, DecidableEq

/-- Line 74: `tag.startsWith('v') ? tag : 'v' + tag`. -/
def normalizeTag (tag : String) : String :=
  if jsStartsWith tag "v" then tag else "v" ++ tag

/-- Model of `cleanSpecificTag`: normalize the tag to a leading `v` (line 74), resolve
to the two candidate references (lines 75-78), keep those that exist
(lines 80-85), report and stop when none do (lines 87-90), else per target
remove its containers then the image (lines 93-101) and finally drop the
tracking entry for `(projectPath, localRepo, normalizedTag)` (line 104). -/
def cleanSpecificTag (projectPath localRepo registryRepo tag : String)
    (imageExists : String → Bool) (containersOf : String → List String)
    (cOk iOk : String → Bool) : CleanTagResult :=
  let normalizedTag := normalizeTag tag
  let targets := [localRepo ++ ":" ++ normalizedTag, registryRepo ++ ":" ++ normalizedTag]
  let existingTargets := targets.filter imageExists
  if existingTargets.isEmpty then
    { normalizedTag := normalizedTag, existingTargets := existingTargets, effects := [] }
  else
    { normalizedTag := normalizedTag
      existingTargets := existingTargets
      effects :=
        (existingTargets.foldr (fun target acc =>
          (let cs := containersOf target
           (if cs.isEmpty then [] else cs.map (fun c => Effect.removeContainer c (cOk c)))
             ++ [Effect.removeImage target (iOk target)]) ++ acc) [])
        ++ [Effect.trackRemove projectPath localRepo normalizedTag] }

/-! ### The tracking store: `ImageTracker` (image-tracker.ts) -/

/-- The composite store key (lines 46, 63, 77, 87, 97). -/
def trackKey (projectPath imageName tag : String) : String :=
  projectPath ++ ":" ++ imageName ++ ":" ++ tag

/-- Model of `trackImage` (lines 41-58): upsert under the composite key. -/
def trackImage (store : List (String × TrackedImage)) (image : TrackedImage) :
    List (String × TrackedImage) :=
  objSet store (trackKey image.projectPath image.imageName image.tag) image

/-- Model of `getTrackedImage` (lines 84-92). -/
def getTrackedImage (store : List (String × TrackedImage)) (projectPath imageName tag : String) :
    Option TrackedImage :=
  objLookup store (trackKey projectPath imageName tag)

/-- Model of `getTrackedImages` (lines 60-72): entries whose key starts with
`projectPath:imageName:`, sorted by `builtAt` descending via the JS `Date`
comparator of line 68. -/
def getTrackedImages (dateParse : String → Option Int)
    (store : List (String × TrackedImage)) (projectPath imageName : String) :
    List TrackedImage :=
  jsSort (jsCmpLe (fun t => dateParse t.builtAt))
    ((store.filter (fun kv => jsStartsWith kv.1 (projectPath ++ ":" ++ imageName ++ ":"))).map
      (fun kv => kv.2))

/-- Model of `removeTrackedImage` (lines 94-108): delete the key if present (writing
the file only when it was; the resulting mapping is the same either way). -/
def removeTrackedImage (store : List (String × TrackedImage))
    (projectPath imageName tag : String) : List (String × TrackedImage) :=
  objDelete store (trackKey projectPath imageName tag)

/-- 7 days in milliseconds (line 114). -/
def staleThreshold : Int := 7 * 24 * 60 * 60 * 1000

/-- Line 119's per-entry test: `now - new Date(builtAt).getTime() > threshold`;
NaN comparisons are false, so unparseable timestamps never count as stale. -/
def isStaleEntry (dateParse : String → Option Int) (nowMs : Int) (image : TrackedImage) : Bool :=
  match dateParse image.builtAt with
  | some t => decide (nowMs - t > staleThreshold)
  | none => false

/-- Model of `cleanupStaleImages` (lines 110-133): iterate over a snapshot of the
entries, deleting every stale one from the store. -/
def cleanupStaleImages (dateParse : String → Option Int) (nowMs : Int)
    (store : List (String × TrackedImage)) : List (String × TrackedImage) :=
  store.foldl (fun acc kv =>
    if isStaleEntry dateParse nowMs kv.2 then objDelete acc kv.1 else acc) store

/-! ### The preference store: `CleanPreferencesManager` (clean-preferences.ts) -/

/-- The persisted shape: `projectPath -> imageName -> excluded tags`. -/
def CleanPreferences : Type := List (String × List (String × List String))

/-- Model of `getExcludedTags` (lines 35-42): `preferences[projectPath]?.[imageName] || []`
(an absent project object and an absent image entry both yield the empty
list). -/
def getExcludedTags (preferences : CleanPreferences) (projectPath imageName : String) :
    List String :=
  (objLookup ((objLookup preferences projectPath).getD []) imageName).getD []

/-- Model of `saveExcludedTags` (lines 44-71): ensure the project object exists, then
either store the non-empty tag list, or delete the image entry and drop the
project object too once it is empty. -/
def saveExcludedTags (preferences : CleanPreferences) (projectPath imageName : String)
    (excludedTags : List String) : CleanPreferences :=
  let preferences :=
    if (objLookup preferences projectPath).isSome then preferences
    else objSet preferences projectPath []
  let inner := (objLookup preferences projectPath).getD []
  if excludedTags.isEmpty then
    let inner := objDelete inner imageName
    if inner.isEmpty then objDelete preferences projectPath
    else objSet preferences projectPath inner
  else
    objSet preferences projectPath (objSet inner imageName excludedTags)

/-! ### Generic lemmas about merge-map building folds

Both phases of `gatherAllRelevantImages` have the shape
"`objSet` under a key computed from the element, with a value that depends on
the element and on what the map currently holds under that key". -/

def phaseStep (keyf : β → String) (valf : Option α → β → α)
    (m : List (String × α)) (y : β) : List (String × α) :=
  objSet m (keyf y) (valf (objLookup m (keyf y)) y)

theorem phase_lookup_of_not_mem (keyf : β → String) (valf : Option α → β → α)
    (l : List β) (m : List (String × α)) (k : String) (hk : ∀ x ∈ l, keyf x ≠ k) :
    objLookup (l.foldl (phaseStep keyf valf) m) k = objLookup m k := by
  induction l generalizing m with
  | nil => rfl
  | cons y ys ih =>
    rw [List.foldl_cons]
    rw [ih _ (fun x hx => hk x (List.mem_cons_of_mem y hx))]
    exact objLookup_objSet_ne m k (keyf y) _ (hk y (List.mem_cons_self y ys))

theorem phase_lookup_self (keyf : β → String) (valf : Option α → β → α)
    (l : List β) (hN : (l.map keyf).Nodup) (m : List (String × α)) (x : β) (hx : x ∈ l) :
    objLookup (l.foldl (phaseStep keyf valf) m) (keyf x)
      = some (valf (objLookup m (keyf x)) x) := by
  induction l generalizing m with
  | nil => simp at hx
  | cons y ys ih =>
    rw [List.map_cons, List.nodup_cons] at hN
    rw [List.foldl_cons]
    rcases List.mem_cons.mp hx with rfl | hx'
    · rw [phase_lookup_of_not_mem keyf valf ys _ (keyf x) ?_]
      · exact objLookup_objSet_self m (keyf x) _
      · intro z hz he
        exact hN.1 (he ▸ List.mem_map_of_mem keyf hz)
    · have hne : keyf y ≠ keyf x := by
        intro he
        exact hN.1 (he ▸ List.mem_map_of_mem keyf hx')
      rw [ih hN.2 _ hx']
      unfold phaseStep
      rw [objLookup_objSet_ne m (keyf x) (keyf y) _ hne]

theorem phase_keys_mem (keyf : β → String) (valf : Option α → β → α)
    (l : List β) (m : List (String × α)) (k : String) :
    (k ∈ (l.foldl (phaseStep keyf valf) m).map Prod.fst
      ↔ k ∈ m.map Prod.fst ∨ ∃ x ∈ l, keyf x = k) := by
  induction l generalizing m with
  | nil => simp
  | cons y ys ih =>
    rw [List.foldl_cons]
    rw [ih]
    unfold phaseStep
    rw [mem_map_fst_objSet]
    constructor
    · rintro ((h | h) | h)
      · exact Or.inl h
      · exact Or.inr ⟨y, List.mem_cons_self y ys, h.symm⟩
      · rcases h with ⟨x, hx, he⟩
        exact Or.inr ⟨x, List.mem_cons_of_mem y hx, he⟩
    · rintro (h | ⟨x, hx, he⟩)
      · exact Or.inl (Or.inl h)
      · rcases List.mem_cons.mp hx with rfl | hx'
        · exact Or.inl (Or.inr he.symm)
        · exact Or.inr ⟨x, hx', he⟩

theorem phase_keys_nodup (keyf : β → String) (valf : Option α → β → α)
    (l : List β) (m : List (String × α)) (h : (m.map Prod.fst).Nodup) :
    ((l.foldl (phaseStep keyf valf) m).map Prod.fst).Nodup := by
  induction l generalizing m with
  | nil => exact h
  | cons y ys ih =>
    rw [List.foldl_cons]
    exact ih _ (nodup_map_fst_objSet _ _ _ h)

theorem phase_values_inv (keyf : β → String) (valf : Option α → β → α)
    (l : List β) (P : String × α → Prop) (m : List (String × α))
    (hm : ∀ kv ∈ m, P kv)
    (hstep : ∀ m' : List (String × α), (∀ kv ∈ m', P kv) →
      ∀ y ∈ l, P (keyf y, valf (objLookup m' (keyf y)) y)) :
    ∀ kv ∈ l.foldl (phaseStep keyf valf) m, P kv := by
  induction l generalizing m with
  | nil => exact hm
  | cons y ys ih =>
    rw [List.foldl_cons]
    refine ih _ ?_ ?_
    · intro kv hkv
      rcases mem_objSet _ _ _ _ hkv with h | h
      · exact hm kv h
      · rw [h]
        exact hstep m hm y (List.mem_cons_self y ys)
    · intro m' hm' z hz
      exact hstep m' hm' z (List.mem_cons_of_mem y hz)

theorem addTracked_eq_phaseStep (localRepo : String) (containersOf : String → List String) :
    addTracked localRepo containersOf
      = phaseStep (trackedImageKey localRepo) (fun _ t => trackedTarget localRepo containersOf t) :=
  rfl

theorem mergeDockerImage_eq_phaseStep (containersOf : String → List String) :
    mergeDockerImage containersOf
      = phaseStep (fun d : DockerImage => d.image) (mergedVal containersOf) :=
  rfl

/-! ### Properties of the merge map built by `gatherAllRelevantImages` -/

/-- The merge map after both phases. -/
def mergeMap (containersOf : String → List String) (localRepo : String)
    (tracked : List TrackedImage) (dockerImages : List DockerImage) :
    List (String × ImageToClean) :=
  dockerImages.foldl (mergeDockerImage containersOf)
    (tracked.foldl (addTracked localRepo containersOf) [])

theorem gatherAllRelevantImages_eq (dateParse : String → Option Int)
    (containersOf : String → List String) (localRepo : String)
    (tracked : List TrackedImage) (dockerImages : List DockerImage) :
    gatherAllRelevantImages dateParse containersOf localRepo tracked dockerImages
      = jsSort (createdCmpLe dateParse)
          ((mergeMap containersOf localRepo tracked dockerImages).map (fun kv => kv.2)) := rfl

/-- Every merge-map entry's value records its own key as `image` and carries
the freshly queried container list for that reference. -/
theorem mergeMap_values_inv (containersOf : String → List String) (localRepo : String)
    (tracked : List TrackedImage) (dockerImages : List DockerImage) :
    ∀ kv ∈ mergeMap containersOf localRepo tracked dockerImages,
      kv.2.image = kv.1 ∧ kv.2.containers = containersOf kv.1 := by
  unfold mergeMap
  rw [addTracked_eq_phaseStep, mergeDockerImage_eq_phaseStep]
  refine phase_values_inv _ _ _ _ _ ?_ ?_
  · refine phase_values_inv _ _ _ _ _ ?_ ?_
    · intro kv hkv
      simp at hkv
    · intro m' _ t _
      exact ⟨rfl, rfl⟩
  · intro m' hm' d _
    rcases h : objLookup m' d.image with _ | existing
    · exact ⟨rfl, rfl⟩
    · have hmem := mem_of_objLookup_eq_some m' d.image existing h
      have himage := (hm' _ hmem).1
      refine ⟨?_, rfl⟩
      show existing.image = d.image
      exact himage

/-- The merge-map keys are exactly the references contributed by the two
sources. -/
theorem mergeMap_keys_mem (containersOf : String → List String) (localRepo : String)
    (tracked : List TrackedImage) (dockerImages : List DockerImage) (r : String) :
    (r ∈ (mergeMap containersOf localRepo tracked dockerImages).map Prod.fst
      ↔ (∃ t ∈ tracked, trackedImageKey localRepo t = r)
        ∨ (∃ d ∈ dockerImages, d.image = r)) := by
  unfold mergeMap
  rw [addTracked_eq_phaseStep, mergeDockerImage_eq_phaseStep]
  rw [phase_keys_mem, phase_keys_mem]
  simp only [List.map_nil, List.not_mem_nil, false_or]

theorem mergeMap_keys_nodup (containersOf : String → List String) (localRepo : String)
    (tracked : List TrackedImage) (dockerImages : List DockerImage) :
    ((mergeMap containersOf localRepo tracked dockerImages).map Prod.fst).Nodup := by
  unfold mergeMap
  rw [addTracked_eq_phaseStep, mergeDockerImage_eq_phaseStep]
  exact phase_keys_nodup _ _ _ _ (phase_keys_nodup _ _ _ _ (by simp))

/-- Final merge-map content for a reference present in both sources: the
tracked target, with gaps filled from the live entry and containers
re-queried. -/
theorem mergeMap_lookup_both (containersOf : String → List String) (localRepo : String)
    (tracked : List TrackedImage) (dockerImages : List DockerImage)
    (hT : (tracked.map (trackedImageKey localRepo)).Nodup)
    (hD : (dockerImages.map DockerImage.image).Nodup)
    (t : TrackedImage) (ht : t ∈ tracked) (d : DockerImage) (hd : d ∈ dockerImages)
    (he : d.image = trackedImageKey localRepo t) :
    objLookup (mergeMap containersOf localRepo tracked dockerImages) d.image
      = some (mergedVal containersOf (some (trackedTarget localRepo containersOf t)) d) := by
  unfold mergeMap
  rw [addTracked_eq_phaseStep, mergeDockerImage_eq_phaseStep]
  rw [phase_lookup_self (fun d : DockerImage => d.image) (mergedVal containersOf)
    dockerImages hD _ d hd]
  have h1 : objLookup
      (tracked.foldl (phaseStep (trackedImageKey localRepo)
        (fun _ t => trackedTarget localRepo containersOf t)) []) (trackedImageKey localRepo t)
      = some (trackedTarget localRepo containersOf t) := by
    rw [phase_lookup_self (trackedImageKey localRepo) _ tracked hT [] t ht]
  rw [he, h1]

/-- C1: For every tracked-entry list and live-image list given to
`gatherAllRelevantImages` (with each source listing each reference at most
once, as the uniquely-keyed tracking store and the engine listing do), the
merged output has exactly one `CleanupTarget` per distinct image reference —
its reference set being exactly the union of the two sources' references;
every target's container list is the freshly queried live list for its
reference; and for a reference present in both sources the merged target
keeps the tracked entry's size/created whenever the tracked entry has them
(non-empty, i.e. JS-truthy), falling back to the live entry's values
otherwise. -/
theorem gather_merge_dedup_field_preference
    (dateParse : String → Option Int) (containersOf : String → List String)
    (localRepo : String) (tracked : List TrackedImage) (dockerImages : List DockerImage)
    (hT : (tracked.map (trackedImageKey localRepo)).Nodup)
    (hD : (dockerImages.map DockerImage.image).Nodup) :
    ((gatherAllRelevantImages dateParse containersOf localRepo tracked dockerImages).map
        ImageToClean.image).Nodup
    ∧ (∀ r : String,
        ((∃ x ∈ gatherAllRelevantImages dateParse containersOf localRepo tracked dockerImages,
            x.image = r)
          ↔ (∃ t ∈ tracked, trackedImageKey localRepo t = r)
            ∨ (∃ d ∈ dockerImages, d.image = r)))
    ∧ (∀ x ∈ gatherAllRelevantImages dateParse containersOf localRepo tracked dockerImages,
        x.containers = containersOf x.image)
    ∧ (∀ t ∈ tracked, ∀ d ∈ dockerImages, d.image = trackedImageKey localRepo t →
        ∃ x ∈ gatherAllRelevantImages dateParse containersOf localRepo tracked dockerImages,
          x.image = d.image ∧ x.isTracked = true
          ∧ x.size = (if jsTruthy t.size then t.size else some d.size)
          ∧ x.created = some (if t.builtAt = "" then d.created else t.builtAt)) := by
  have hinv := mergeMap_values_inv containersOf localRepo tracked dockerImages
  have hval : ∀ x : ImageToClean,
      (x ∈ gatherAllRelevantImages dateParse containersOf localRepo tracked dockerImages
        ↔ x ∈ (mergeMap containersOf localRepo tracked dockerImages).map (fun kv => kv.2)) := by
    intro x
    rw [gatherAllRelevantImages_eq]
    exact mem_jsSort _ _ x
  refine ⟨?_, ?_, ?_, ?_⟩
  · have hperm : List.Perm
        ((gatherAllRelevantImages dateParse containersOf localRepo tracked dockerImages).map
          ImageToClean.image)
        (((mergeMap containersOf localRepo tracked dockerImages).map (fun kv => kv.2)).map
          ImageToClean.image) := by
      rw [gatherAllRelevantImages_eq]
      exact List.Perm.map _ (jsSort_perm _ _)
    rw [List.Perm.nodup_iff hperm, List.map_map]
    have : (mergeMap containersOf localRepo tracked dockerImages).map
        (ImageToClean.image ∘ fun kv => kv.2)
        = (mergeMap containersOf localRepo tracked dockerImages).map Prod.fst := by
      apply List.map_congr_left
      intro kv hkv
      exact (hinv kv hkv).1
    rw [this]
    exact mergeMap_keys_nodup containersOf localRepo tracked dockerImages
  · intro r
    rw [← mergeMap_keys_mem containersOf localRepo tracked dockerImages r]
    constructor
    · rintro ⟨x, hx, rfl⟩
      rcases List.mem_map.mp ((hval x).mp hx) with ⟨kv, hkv, rfl⟩
      rw [(hinv kv hkv).1]
      exact List.mem_map_of_mem Prod.fst hkv
    · intro hr
      rcases List.mem_map.mp hr with ⟨kv, hkv, rfl⟩
      exact ⟨kv.2, (hval kv.2).mpr (List.mem_map_of_mem _ hkv), (hinv kv hkv).1⟩
  · intro x hx
    rcases List.mem_map.mp ((hval x).mp hx) with ⟨kv, hkv, rfl⟩
    rw [(hinv kv hkv).1, (hinv kv hkv).2]
  · intro t ht d hd he
    have hlook := mergeMap_lookup_both containersOf localRepo tracked dockerImages hT hD
      t ht d hd he
    have hmem := mem_of_objLookup_eq_some _ _ _ hlook
    refine ⟨mergedVal containersOf (some (trackedTarget localRepo containersOf t)) d,
      (hval _).mpr (List.mem_map_of_mem (fun kv => kv.2) hmem), ?_, rfl, ?_, ?_⟩
    · show (trackedTarget localRepo containersOf t).image = d.image
      rw [he]
      rfl
    · show some (jsOrS t.size d.size) = if jsTruthy t.size then t.size else some d.size
      rcases t.size with _ | s
      · rfl
      · by_cases hs : s = "" <;> simp [jsOrS, jsTruthy, hs]
    · show some (jsOrS (some t.builtAt) d.created)
        = some (if t.builtAt = "" then d.created else t.builtAt)
      by_cases hb : t.builtAt = "" <;> simp [jsOrS, hb]

/-- Witness for C1 at a concrete instance: one tracked entry for `app:v1`
(sized, with an ISO build timestamp) merged with live listings for `app:v1`
and `app:v2`. -/
theorem gather_merge_dedup_field_preference_witness :
    (([{ imageName := "app", tag := "v1", fullImageName := "app:v1", projectPath := "/p",
         builtAt := "2024-01-02T00:00:00.000Z", size := some "12MB" }].map
        (trackedImageKey "app")).Nodup
      ∧ ([{ image := "app:v1", tag := "v1", size := "10MB", created := "2 days ago" },
          { image := "app:v2", tag := "v2", size := "11MB", created := "3 days ago" }].map
           DockerImage.image).Nodup)
    ∧ ((gatherAllRelevantImages jsDateParse (fun _ => []) "app"
          [{ imageName := "app", tag := "v1", fullImageName := "app:v1", projectPath := "/p",
             builtAt := "2024-01-02T00:00:00.000Z", size := some "12MB" }]
          [{ image := "app:v1", tag := "v1", size := "10MB", created := "2 days ago" },
           { image := "app:v2", tag := "v2", size := "11MB", created := "3 days ago" }]).map
        ImageToClean.image).Nodup :=
  ⟨⟨by decide, by decide⟩,
    (gather_merge_dedup_field_preference jsDateParse (fun _ => []) "app"
      [{ imageName := "app", tag := "v1", fullImageName := "app:v1", projectPath := "/p",
         builtAt := "2024-01-02T00:00:00.000Z", size := some "12MB" }]
      [{ image := "app:v1", tag := "v1", size := "10MB", created := "2 days ago" },
       { image := "app:v2", tag := "v2", size := "11MB", created := "3 days ago" }]
      (by decide) (by decide)).1⟩

/-- C2 counterexample: the claim says an entry with an unparseable timestamp
sorts as epoch zero, i.e. after (older than) every entry with a parseable
timestamp.  But `new Date("garbage").getTime()` is NaN, the comparator
`dateB - dateA` is then NaN, which orders nothing (it is neither `< 0` nor
`> 0`), so the stable sort leaves the unparseable entry exactly where it was:
here `app:x` (created "garbage") stays ahead of the strictly newer parseable
`app:v1`, contradicting the claim.  Only a missing/empty timestamp becomes
epoch zero (via `a.created || 0`). -/
theorem gather_sort_unparseable_counterexample :
    ((gatherAllRelevantImages jsDateParse (fun _ => []) "app" []
        [{ image := "app:x", tag := "x", size := "10MB", created := "garbage" },
         { image := "app:v1", tag := "v1", size := "11MB",
           created := "2024-01-02T00:00:00.000Z" }]).map ImageToClean.created
      = [some "garbage", some "2024-01-02T00:00:00.000Z"])
    ∧ jsDateParse "garbage" = none
    ∧ jsDateParse "2024-01-02T00:00:00.000Z" = some 1704153600000 := by
  refine ⟨by decide, by decide, by decide⟩

/-- The relation `createdCmpLe` is the plain descending-time order once both keys are
defined (non-NaN). -/
theorem createdCmpLe_eq_of_isSome (dateParse : String → Option Int) (a b : ImageToClean)
    (ha : (jsTime dateParse a.created).isSome) (hb : (jsTime dateParse b.created).isSome) :
    createdCmpLe dateParse a b
      = decide ((jsTime dateParse b.created).getD 0 ≤ (jsTime dateParse a.created).getD 0) := by
  rcases Option.isSome_iff_exists.mp ha with ⟨ta, hta⟩
  rcases Option.isSome_iff_exists.mp hb with ⟨tb, htb⟩
  simp only [createdCmpLe, jsCmpLe, hta, htb, Option.getD_some]
  simp only [decide_eq_decide]
  exact sub_nonpos

/-- Every merge-map value's `created` field has a defined (non-NaN) time when
both sources' timestamps do. -/
theorem mergeMap_created_isSome (dateParse : String → Option Int)
    (containersOf : String → List String) (localRepo : String)
    (tracked : List TrackedImage) (dockerImages : List DockerImage)
    (hTp : ∀ t ∈ tracked, (jsTime dateParse (some t.builtAt)).isSome)
    (hDp : ∀ d ∈ dockerImages, (jsTime dateParse (some d.created)).isSome) :
    ∀ kv ∈ mergeMap containersOf localRepo tracked dockerImages,
      (jsTime dateParse kv.2.created).isSome := by
  unfold mergeMap
  rw [addTracked_eq_phaseStep, mergeDockerImage_eq_phaseStep]
  refine phase_values_inv _ _ _ _ _ ?_ ?_
  · refine phase_values_inv _ _ _ _ _ ?_ ?_
    · intro kv hkv
      simp at hkv
    · intro m' _ t ht
      exact hTp t ht
  · intro m' hm' d hd
    rcases h : objLookup m' d.image with _ | existing
    · exact hDp d hd
    · have hex := hm' _ (mem_of_objLookup_eq_some m' d.image existing h)
      show (jsTime dateParse (some (jsOrS existing.created d.created))).isSome
      rcases hc : existing.created with _ | s
      · show (jsTime dateParse (some (jsOrS none d.created))).isSome
        exact hDp d hd
      · rw [hc] at hex
        by_cases hs : s = ""
        · have h1 : jsOrS (some s) d.created = d.created := by simp [jsOrS, hs]
          rw [h1]
          exact hDp d hd
        · have h1 : jsOrS (some s) d.created = s := by simp [jsOrS, hs]
          rw [h1]
          simpa [jsTime, hs] using hex

/-- C2 as amended: the engine emits the merge map's values sorted by
creation/build time descending (newest first), provided every timestamp from
either source is parseable (or empty, which counts as epoch zero) — and a
missing timestamp evaluates to epoch zero.  For an unparseable timestamp the
comparator yields NaN and imposes no order at all (see the counterexample):
such entries are not pushed after parseable ones. -/
theorem gather_sorted_desc_amended (dateParse : String → Option Int)
    (containersOf : String → List String) (localRepo : String)
    (tracked : List TrackedImage) (dockerImages : List DockerImage)
    (hTp : ∀ t ∈ tracked, (jsTime dateParse (some t.builtAt)).isSome)
    (hDp : ∀ d ∈ dockerImages, (jsTime dateParse (some d.created)).isSome) :
    (gatherAllRelevantImages dateParse containersOf localRepo tracked dockerImages).Pairwise
      (fun a b => (jsTime dateParse b.created).getD 0 ≤ (jsTime dateParse a.created).getD 0)
    ∧ jsTime dateParse none = some 0 := by
  refine ⟨?_, rfl⟩
  have hsome : ∀ x ∈ (mergeMap containersOf localRepo tracked dockerImages).map
      (fun kv => kv.2), (jsTime dateParse x.created).isSome := by
    intro x hx
    rcases List.mem_map.mp hx with ⟨kv, hkv, rfl⟩
    exact mergeMap_created_isSome dateParse containersOf localRepo tracked dockerImages
      hTp hDp kv hkv
  rw [gatherAllRelevantImages_eq]
  have hp := jsSort_pairwise (createdCmpLe dateParse)
    ((mergeMap containersOf localRepo tracked dockerImages).map (fun kv => kv.2))
    ?_ ?_
  · refine List.Pairwise.imp_of_mem ?_ hp
    intro a b ha hb hab
    rw [mem_jsSort] at ha hb
    rw [createdCmpLe_eq_of_isSome dateParse a b (hsome a ha) (hsome b hb)] at hab
    exact of_decide_eq_true hab
  · intro a ha b hb
    rw [createdCmpLe_eq_of_isSome dateParse a b (hsome a ha) (hsome b hb),
      createdCmpLe_eq_of_isSome dateParse b a (hsome b hb) (hsome a ha)]
    rcases le_total ((jsTime dateParse b.created).getD 0) ((jsTime dateParse a.created).getD 0)
      with h | h
    · exact Or.inl (decide_eq_true h)
    · exact Or.inr (decide_eq_true h)
  · intro a ha b hb c hc h1 h2
    rw [createdCmpLe_eq_of_isSome dateParse a b (hsome a ha) (hsome b hb)] at h1
    rw [createdCmpLe_eq_of_isSome dateParse b c (hsome b hb) (hsome c hc)] at h2
    rw [createdCmpLe_eq_of_isSome dateParse a c (hsome a ha) (hsome c hc)]
    exact decide_eq_true (le_trans (of_decide_eq_true h2) (of_decide_eq_true h1))

/-- Witness for the amended C2 at a concrete instance: two tracked entries
with parseable ISO timestamps, no live entries. -/
theorem gather_sorted_desc_amended_witness :
    ((∀ t ∈ [{ imageName := "app", tag := "v1", fullImageName := "app:v1", projectPath := "/p",
               builtAt := "2024-01-02T00:00:00.000Z" },
             { imageName := "app", tag := "v2", fullImageName := "app:v2", projectPath := "/p",
               builtAt := "2024-03-05T00:00:00.000Z" }],
        (jsTime jsDateParse (some (TrackedImage.builtAt t))).isSome)
      ∧ (∀ d ∈ ([] : List DockerImage), (jsTime jsDateParse (some d.created)).isSome))
    ∧ (gatherAllRelevantImages jsDateParse (fun _ => []) "app"
        [{ imageName := "app", tag := "v1", fullImageName := "app:v1", projectPath := "/p",
           builtAt := "2024-01-02T00:00:00.000Z" },
         { imageName := "app", tag := "v2", fullImageName := "app:v2", projectPath := "/p",
           builtAt := "2024-03-05T00:00:00.000Z" }] []).Pairwise
        (fun a b => (jsTime jsDateParse b.created).getD 0 ≤ (jsTime jsDateParse a.created).getD 0) :=
  ⟨⟨by decide, by decide⟩,
    (gather_sorted_desc_amended jsDateParse (fun _ => []) "app"
      [{ imageName := "app", tag := "v1", fullImageName := "app:v1", projectPath := "/p",
         builtAt := "2024-01-02T00:00:00.000Z" },
       { imageName := "app", tag := "v2", fullImageName := "app:v2", projectPath := "/p",
         builtAt := "2024-03-05T00:00:00.000Z" }] []
      (by decide) (by decide)).1⟩

/-! ### The three phases of `performCleanup` and their traces -/

/-- First loop (lines 226-231): container removals for every target. -/
def containerPhase (cOk : String → Bool) (selectedImages : List ImageToClean) : List Effect :=
  selectedImages.foldr (fun img acc =>
    (if img.containers.isEmpty then []
     else img.containers.map (fun c => Effect.removeContainer c (cOk c))) ++ acc) []

/-- Second loop (lines 234-237): one image removal per target. -/
def imagePhase (iOk : String → Bool) (selectedImages : List ImageToClean) : List Effect :=
  selectedImages.map (fun img => Effect.removeImage img.image (iOk img.image))

/-- Third loop (lines 240-244): tracking-store removal per tracked target. -/
def trackingPhase (projectPath localRepo : String) (selectedImages : List ImageToClean) :
    List Effect :=
  selectedImages.foldr (fun img acc =>
    (if img.isTracked then [Effect.trackRemove projectPath localRepo img.tag] else []) ++ acc) []

theorem performCleanup_eq (projectPath localRepo : String) (cOk iOk : String → Bool)
    (selectedImages : List ImageToClean) :
    performCleanup projectPath localRepo cOk iOk selectedImages
      = containerPhase cOk selectedImages ++ imagePhase iOk selectedImages
        ++ trackingPhase projectPath localRepo selectedImages := by
  unfold performCleanup containerPhase imagePhase trackingPhase
  rw [List.append_assoc]

theorem mem_trackingPhase (projectPath localRepo : String)
    (selectedImages : List ImageToClean) (e : Effect) :
    (e ∈ trackingPhase projectPath localRepo selectedImages
      ↔ ∃ img ∈ selectedImages, img.isTracked = true
          ∧ e = Effect.trackRemove projectPath localRepo img.tag) := by
  induction selectedImages with
  | nil => simp [trackingPhase]
  | cons img rest ih =>
    unfold trackingPhase
    rw [List.foldr_cons, List.mem_append]
    constructor
    · rintro (h | h)
      · by_cases hT : img.isTracked
        · rw [if_pos hT] at h
          rcases List.mem_singleton.mp h with rfl
          exact ⟨img, List.mem_cons_self img rest, hT, rfl⟩
        · rw [if_neg hT] at h
          simp at h
      · rcases ih.mp h with ⟨img', h1, h2, h3⟩
        exact ⟨img', List.mem_cons_of_mem img h1, h2, h3⟩
    · rintro ⟨img', h1, h2, rfl⟩
      rcases List.mem_cons.mp h1 with rfl | h1'
      · left
        rw [if_pos h2]
        exact List.mem_singleton.mpr rfl
      · right
        exact ih.mpr ⟨img', h1', h2, rfl⟩

theorem mem_containerPhase_shape (cOk : String → Bool) (selectedImages : List ImageToClean)
    (e : Effect) (h : e ∈ containerPhase cOk selectedImages) :
    ∃ c, e = Effect.removeContainer c (cOk c) := by
  induction selectedImages with
  | nil => simp [containerPhase] at h
  | cons img rest ih =>
    unfold containerPhase at h
    rw [List.foldr_cons, List.mem_append] at h
    rcases h with h | h
    · by_cases hc : img.containers.isEmpty
      · rw [if_pos hc] at h
        simp at h
      · rw [if_neg hc] at h
        rcases List.mem_map.mp h with ⟨c, _, rfl⟩
        exact ⟨c, rfl⟩
    · exact ih h

theorem mem_containerPhase_of_mem (cOk : String → Bool) (selectedImages : List ImageToClean)
    (img : ImageToClean) (hi : img ∈ selectedImages) (c : String) (hc : c ∈ img.containers) :
    Effect.removeContainer c (cOk c) ∈ containerPhase cOk selectedImages := by
  induction selectedImages with
  | nil => simp at hi
  | cons img' rest ih =>
    unfold containerPhase
    rw [List.foldr_cons, List.mem_append]
    rcases List.mem_cons.mp hi with rfl | hi'
    · left
      have hne : ¬ img.containers.isEmpty := by
        cases h : img.containers with
        | nil => rw [h] at hc; simp at hc
        | cons a l => simp [h]
      rw [if_neg hne]
      exact List.mem_map_of_mem _ hc
    · right
      exact ih hi'

/-- Applying the tracking-store effects of a trace to a store
(`ImageTracker.removeTrackedImage` per `trackRemove` event). -/
def applyTrackingEffects (store : List (String × TrackedImage)) (effects : List Effect) :
    List (String × TrackedImage) :=
  effects.foldl (fun st e =>
    match e with
    | Effect.trackRemove p i t => removeTrackedImage st p i t
    | _ => st) store

theorem applyTrackingEffects_of_no_trackRemove (store : List (String × TrackedImage))
    (effects : List Effect)
    (h : ∀ p i t, Effect.trackRemove p i t ∉ effects) :
    applyTrackingEffects store effects = store := by
  induction effects generalizing store with
  | nil => rfl
  | cons e es ih =>
    unfold applyTrackingEffects
    rw [List.foldl_cons]
    have hrest : ∀ p i t, Effect.trackRemove p i t ∉ es :=
      fun p i t hm => h p i t (List.mem_cons_of_mem e hm)
    cases e with
    | trackRemove p i t => exact absurd (List.mem_cons_self _ _) (h p i t)
    | removeContainer id ok => exact ih store hrest
    | removeImage ref ok => exact ih store hrest
    | prefSave p i ex => exact ih store hrest
    | prefSweepStale => exact ih store hrest

theorem getTrackedImage_none_preserved (store : List (String × TrackedImage))
    (effects : List Effect) (p i t : String)
    (h : getTrackedImage store p i t = none) :
    getTrackedImage (applyTrackingEffects store effects) p i t = none := by
  induction effects generalizing store with
  | nil => exact h
  | cons e es ih =>
    unfold applyTrackingEffects
    rw [List.foldl_cons]
    refine ih _ ?_
    cases e with
    | trackRemove p' i' t' =>
      show getTrackedImage (removeTrackedImage store p' i' t') p i t = none
      unfold getTrackedImage removeTrackedImage
      by_cases hk : trackKey p' i' t' = trackKey p i t
      · rw [hk]
        exact objLookup_objDelete_self store _
      · rw [objLookup_objDelete_ne store _ _ hk]
        exact h
    | removeContainer id ok => exact h
    | removeImage ref ok => exact h
    | prefSave p' i' ex => exact h
    | prefSweepStale => exact h

theorem getTrackedImage_applyTrackingEffects_removed (store : List (String × TrackedImage))
    (effects : List Effect) (p i t : String)
    (h : Effect.trackRemove p i t ∈ effects) :
    getTrackedImage (applyTrackingEffects store effects) p i t = none := by
  induction effects generalizing store with
  | nil => simp at h
  | cons e es ih =>
    unfold applyTrackingEffects
    rw [List.foldl_cons]
    rcases List.mem_cons.mp h with rfl | h'
    · refine getTrackedImage_none_preserved _ es p i t ?_
      show getTrackedImage (removeTrackedImage store p i t) p i t = none
      unfold getTrackedImage removeTrackedImage
      exact objLookup_objDelete_self store _
    · exact ih _ h'


/-! ### C3: what a declined interactive selection actually does -/

/-- C3 counterexample: the claim says a declined confirmation/selection ends
the run with no side effects — in particular no Preference Store mutation.
But `selectImagesInteractively` unconditionally persists the complement of
the selection as the new exclusion set (line 213), so declining by selecting
nothing writes the Preference Store, recording every presented tag as
excluded (and the stale-preference sweep of line 34 ran as well). -/
theorem run_decline_counterexample :
    (runFullProject jsDateParse (fun _ => []) "/p" "app" []
        [{ image := "app:v1", tag := "v1", size := "10MB", created := "2 days ago" }]
        false [] (fun _ => true) (fun _ => true)
      = [Effect.prefSweepStale, Effect.prefSave "/p" "app" ["v1"]])
    ∧ Effect.prefSave "/p" "app" ["v1"]
        ∈ runFullProject jsDateParse (fun _ => []) "/p" "app" []
            [{ image := "app:v1", tag := "v1", size := "10MB", created := "2 days ago" }]
            false [] (fun _ => true) (fun _ => true) := by
  refine ⟨by decide, by decide⟩

/-- C3 as amended: when the user declines by selecting nothing (no `--yes`),
the run issues no container removal, no image removal and no Tracking Store
mutation; but it does mutate the Preference Store — the stale-preference
sweep always runs first, and whenever the gathered list is non-empty the
empty selection is persisted as excluding every presented tag. -/
theorem run_decline_no_removals_amended (dateParse : String → Option Int)
    (containersOf : String → List String) (projectPath localRepo : String)
    (tracked : List TrackedImage) (dockerImages : List DockerImage)
    (cOk iOk : String → Bool) :
    (runFullProject dateParse containersOf projectPath localRepo tracked dockerImages
        false [] cOk iOk
      = Effect.prefSweepStale ::
          (if (gatherAllRelevantImages dateParse containersOf localRepo tracked
                dockerImages).isEmpty then []
           else [Effect.prefSave projectPath localRepo
              (newExcludedTags
                (gatherAllRelevantImages dateParse containersOf localRepo tracked dockerImages)
                [])]))
    ∧ (∀ e ∈ runFullProject dateParse containersOf projectPath localRepo tracked dockerImages
          false [] cOk iOk,
        (∀ id ok, e ≠ Effect.removeContainer id ok)
        ∧ (∀ ref ok, e ≠ Effect.removeImage ref ok)
        ∧ (∀ p i t, e ≠ Effect.trackRemove p i t))
    ∧ (∀ store : List (String × TrackedImage),
        applyTrackingEffects store
          (runFullProject dateParse containersOf projectPath localRepo tracked dockerImages
            false [] cOk iOk) = store) := by
  have htrace : runFullProject dateParse containersOf projectPath localRepo tracked dockerImages
      false [] cOk iOk
      = Effect.prefSweepStale ::
          (if (gatherAllRelevantImages dateParse containersOf localRepo tracked
                dockerImages).isEmpty then []
           else [Effect.prefSave projectPath localRepo
              (newExcludedTags
                (gatherAllRelevantImages dateParse containersOf localRepo tracked dockerImages)
                [])]) := by
    unfold runFullProject
    by_cases h : (gatherAllRelevantImages dateParse containersOf localRepo tracked
        dockerImages).isEmpty
    · simp [h]
    · simp [h, selectImagesInteractively]
  refine ⟨htrace, ?_, ?_⟩
  · intro e he
    rw [htrace] at he
    rcases List.mem_cons.mp he with rfl | he'
    · exact ⟨fun _ _ => by simp, fun _ _ => by simp, fun _ _ _ => by simp⟩
    · by_cases h : (gatherAllRelevantImages dateParse containersOf localRepo tracked
          dockerImages).isEmpty
      · rw [if_pos h] at he'
        simp at he'
      · rw [if_neg h] at he'
        rcases List.mem_singleton.mp he' with rfl
        exact ⟨fun _ _ => by simp, fun _ _ => by simp, fun _ _ _ => by simp⟩
  · intro store
    apply applyTrackingEffects_of_no_trackRemove
    intro p i t hm
    rw [htrace] at hm
    rcases List.mem_cons.mp hm with he | he'
    · simp at he
    · by_cases h : (gatherAllRelevantImages dateParse containersOf localRepo tracked
          dockerImages).isEmpty
      · rw [if_pos h] at he'
        simp at he'
      · rw [if_neg h] at he'
        simp at he'

/-- Witness for the amended C3 at the concrete declined run of the
counterexample instance. -/
theorem run_decline_no_removals_amended_witness :
    ∀ e ∈ runFullProject jsDateParse (fun _ => []) "/p" "app" []
        [{ image := "app:v1", tag := "v1", size := "10MB", created := "2 days ago" }]
        false [] (fun _ => true) (fun _ => true),
      (∀ id ok, e ≠ Effect.removeContainer id ok)
      ∧ (∀ ref ok, e ≠ Effect.removeImage ref ok)
      ∧ (∀ p i t, e ≠ Effect.trackRemove p i t) :=
  (run_decline_no_removals_amended jsDateParse (fun _ => []) "/p" "app" []
    [{ image := "app:v1", tag := "v1", size := "10MB", created := "2 days ago" }]
    (fun _ => true) (fun _ => true)).2.1

/-- C4: after a confirmed cleanup, every selected target with
`isTracked = true` gets its Tracking Store entry removed (a `trackRemove`
effect is issued and, applied to any store, its entry is gone); every
`trackRemove` the run issues stems from a tracked selected target, so for
untracked targets the Tracking Store is never touched (and an all-untracked
selection leaves any store unchanged); and the set of tracking events does
not depend on the container/image-removal outcome oracles — the removal
loops swallow their errors, so tracking update happens regardless of whether
the image removal succeeded. -/
theorem performCleanup_tracking_update (projectPath localRepo : String)
    (cOk iOk : String → Bool) (selectedImages : List ImageToClean) :
    (∀ img ∈ selectedImages, img.isTracked = true →
      Effect.trackRemove projectPath localRepo img.tag
          ∈ performCleanup projectPath localRepo cOk iOk selectedImages
        ∧ ∀ store : List (String × TrackedImage),
            getTrackedImage
              (applyTrackingEffects store
                (performCleanup projectPath localRepo cOk iOk selectedImages))
              projectPath localRepo img.tag = none)
    ∧ (∀ p i t : String,
        Effect.trackRemove p i t ∈ performCleanup projectPath localRepo cOk iOk selectedImages →
        p = projectPath ∧ i = localRepo
          ∧ ∃ img ∈ selectedImages, img.isTracked = true ∧ img.tag = t)
    ∧ ((∀ img ∈ selectedImages, img.isTracked = false) →
        ∀ store : List (String × TrackedImage),
          applyTrackingEffects store
            (performCleanup projectPath localRepo cOk iOk selectedImages) = store)
    ∧ (∀ cOk' iOk' : String → Bool, ∀ p i t : String,
        (Effect.trackRemove p i t
            ∈ performCleanup projectPath localRepo cOk' iOk' selectedImages
          ↔ Effect.trackRemove p i t
            ∈ performCleanup projectPath localRepo cOk iOk selectedImages)) := by
  have hiff : ∀ (cOk₁ iOk₁ : String → Bool) (p i t : String),
      (Effect.trackRemove p i t ∈ performCleanup projectPath localRepo cOk₁ iOk₁ selectedImages
        ↔ Effect.trackRemove p i t ∈ trackingPhase projectPath localRepo selectedImages) := by
    intro cOk₁ iOk₁ p i t
    rw [performCleanup_eq, List.mem_append, List.mem_append]
    constructor
    · rintro ((h | h) | h)
      · rcases mem_containerPhase_shape cOk₁ selectedImages _ h with ⟨c, hc⟩
        simp at hc
      · unfold imagePhase at h
        rcases List.mem_map.mp h with ⟨img, _, he⟩
        simp at he
      · exact h
    · intro h
      exact Or.inr h
  refine ⟨?_, ?_, ?_, ?_⟩
  · intro img hmem htr
    have hin : Effect.trackRemove projectPath localRepo img.tag
        ∈ performCleanup projectPath localRepo cOk iOk selectedImages :=
      (hiff cOk iOk _ _ _).mpr
        ((mem_trackingPhase projectPath localRepo selectedImages _).mpr ⟨img, hmem, htr, rfl⟩)
    exact ⟨hin, fun store =>
      getTrackedImage_applyTrackingEffects_removed store _ projectPath localRepo img.tag hin⟩
  · intro p i t h
    rcases (mem_trackingPhase projectPath localRepo selectedImages _).mp
      ((hiff cOk iOk p i t).mp h) with ⟨img, hmem, htr, heq⟩
    have h3 : p = projectPath ∧ i = localRepo ∧ t = img.tag := by
      constructor
      · exact congrArg (fun e => match e with
          | Effect.trackRemove a _ _ => a
          | _ => p) heq
      constructor
      · exact congrArg (fun e => match e with
          | Effect.trackRemove _ b _ => b
          | _ => i) heq
      · exact congrArg (fun e => match e with
          | Effect.trackRemove _ _ c => c
          | _ => t) heq
    exact ⟨h3.1, h3.2.1, img, hmem, htr, h3.2.2.symm⟩
  · intro hall store
    apply applyTrackingEffects_of_no_trackRemove
    intro p i t hm
    rcases (mem_trackingPhase projectPath localRepo selectedImages _).mp
      ((hiff cOk iOk p i t).mp hm) with ⟨img, hmem, htr, _⟩
    rw [hall img hmem] at htr
    exact Bool.false_ne_true htr
  · intro cOk' iOk' p i t
    rw [hiff cOk' iOk' p i t, hiff cOk iOk p i t]

/-- Witness for C4: a tracked `app:v1` and an untracked `app:v2` selected; the
tracked one's entry is removed from a one-entry store. -/
theorem performCleanup_tracking_update_witness :
    ({ image := "app:v1", tag := "v1", isTracked := true,
       containers := [] : ImageToClean }
        ∈ [{ image := "app:v1", tag := "v1", isTracked := true, containers := [] : ImageToClean },
           { image := "app:v2", tag := "v2", isTracked := false, containers := [] }]
      ∧ ({ image := "app:v1", tag := "v1", isTracked := true,
           containers := [] : ImageToClean }).isTracked = true)
    ∧ Effect.trackRemove "/p" "app" "v1"
        ∈ performCleanup "/p" "app" (fun _ => true) (fun _ => false)
            [{ image := "app:v1", tag := "v1", isTracked := true, containers := [] },
             { image := "app:v2", tag := "v2", isTracked := false, containers := [] }] :=
  ⟨⟨by decide, by decide⟩,
    ((performCleanup_tracking_update "/p" "app" (fun _ => true) (fun _ => false)
        [{ image := "app:v1", tag := "v1", isTracked := true, containers := [] },
         { image := "app:v2", tag := "v2", isTracked := false, containers := [] }]).1
      { image := "app:v1", tag := "v1", isTracked := true, containers := [] }
      (by decide) (by decide)).1⟩

/-! ### Field equations for `cleanSpecificTag` -/

theorem cleanSpecificTag_normalizedTag (projectPath localRepo registryRepo tag : String)
    (imageExists : String → Bool) (containersOf : String → List String)
    (cOk iOk : String → Bool) :
    (cleanSpecificTag projectPath localRepo registryRepo tag imageExists containersOf
      cOk iOk).normalizedTag = normalizeTag tag := by
  simp only [cleanSpecificTag]
  by_cases h : ([localRepo ++ ":" ++ normalizeTag tag,
      registryRepo ++ ":" ++ normalizeTag tag].filter imageExists).isEmpty = true
  · rw [if_pos h]
  · rw [if_neg h]

theorem cleanSpecificTag_existingTargets (projectPath localRepo registryRepo tag : String)
    (imageExists : String → Bool) (containersOf : String → List String)
    (cOk iOk : String → Bool) :
    (cleanSpecificTag projectPath localRepo registryRepo tag imageExists containersOf
        cOk iOk).existingTargets
      = [localRepo ++ ":" ++ normalizeTag tag,
         registryRepo ++ ":" ++ normalizeTag tag].filter imageExists := by
  simp only [cleanSpecificTag]
  by_cases h : ([localRepo ++ ":" ++ normalizeTag tag,
      registryRepo ++ ":" ++ normalizeTag tag].filter imageExists).isEmpty = true
  · rw [if_pos h]
  · rw [if_neg h]

theorem cleanSpecificTag_effects_empty (projectPath localRepo registryRepo tag : String)
    (imageExists : String → Bool) (containersOf : String → List String)
    (cOk iOk : String → Bool)
    (h : ([localRepo ++ ":" ++ normalizeTag tag,
           registryRepo ++ ":" ++ normalizeTag tag].filter imageExists).isEmpty = true) :
    (cleanSpecificTag projectPath localRepo registryRepo tag imageExists containersOf
      cOk iOk).effects = [] := by
  simp only [cleanSpecificTag]
  rw [if_pos h]

theorem cleanSpecificTag_effects_nonempty (projectPath localRepo registryRepo tag : String)
    (imageExists : String → Bool) (containersOf : String → List String)
    (cOk iOk : String → Bool)
    (h : ([localRepo ++ ":" ++ normalizeTag tag,
           registryRepo ++ ":" ++ normalizeTag tag].filter imageExists).isEmpty = false) :
    (cleanSpecificTag projectPath localRepo registryRepo tag imageExists containersOf
        cOk iOk).effects
      = (([localRepo ++ ":" ++ normalizeTag tag,
           registryRepo ++ ":" ++ normalizeTag tag].filter imageExists).foldr
          (fun target acc =>
            ((if (containersOf target).isEmpty then []
              else (containersOf target).map (fun c => Effect.removeContainer c (cOk c)))
              ++ [Effect.removeImage target (iOk target)]) ++ acc) [])
        ++ [Effect.trackRemove projectPath localRepo (normalizeTag tag)] := by
  simp only [cleanSpecificTag]
  rw [if_neg (by rw [h]; exact Bool.false_ne_true)]

/-- Split a flattened `foldr` at one source element. -/
theorem foldr_flatten_split (f : σ → List α) (l : List σ) (x : σ) (hx : x ∈ l) :
    ∃ F₁ F₂, l.foldr (fun y acc => f y ++ acc) [] = F₁ ++ (f x ++ F₂) := by
  induction l with
  | nil => cases hx
  | cons y ys ih =>
    rcases List.mem_cons.mp hx with rfl | hx'
    · exact ⟨[], ys.foldr (fun y acc => f y ++ acc) [],
        by rw [List.foldr_cons, List.nil_append]⟩
    · rcases ih hx' with ⟨F₁, F₂, he⟩
      refine ⟨f y ++ F₁, F₂, ?_⟩
      rw [List.foldr_cons, he, List.append_assoc]

/-- C5: in both cleanup modes, for every target with a non-empty container
list, all of that target's container removals are attempted strictly before
that target's image removal: the trace splits as `pre ++ imageRemoval :: post`
with every one of the target's container removals inside `pre`. -/
theorem removal_order_containers_before_image
    (projectPath localRepo registryRepo tag : String)
    (imageExists : String → Bool) (containersOf : String → List String)
    (cOk iOk : String → Bool) (selectedImages : List ImageToClean) :
    (∀ img ∈ selectedImages, img.containers ≠ [] →
      ∃ pre post,
        performCleanup projectPath localRepo cOk iOk selectedImages
            = pre ++ Effect.removeImage img.image (iOk img.image) :: post
          ∧ ∀ c ∈ img.containers, Effect.removeContainer c (cOk c) ∈ pre)
    ∧ (∀ target ∈ (cleanSpecificTag projectPath localRepo registryRepo tag imageExists
          containersOf cOk iOk).existingTargets,
        containersOf target ≠ [] →
        ∃ pre post,
          (cleanSpecificTag projectPath localRepo registryRepo tag imageExists
              containersOf cOk iOk).effects
              = pre ++ Effect.removeImage target (iOk target) :: post
            ∧ ∀ c ∈ containersOf target, Effect.removeContainer c (cOk c) ∈ pre) := by
  constructor
  · intro img hmem _
    have himg : Effect.removeImage img.image (iOk img.image) ∈ imagePhase iOk selectedImages :=
      List.mem_map_of_mem _ hmem
    rcases List.append_of_mem himg with ⟨b1, b2, hb⟩
    refine ⟨containerPhase cOk selectedImages ++ b1, b2 ++ trackingPhase projectPath localRepo
      selectedImages, ?_, ?_⟩
    · rw [performCleanup_eq, hb]
      simp [List.append_assoc]
    · intro c hc
      exact List.mem_append_left b1 (mem_containerPhase_of_mem cOk selectedImages img hmem c hc)
  · intro target hmem hcne
    rw [cleanSpecificTag_existingTargets] at hmem
    have hne : ([localRepo ++ ":" ++ normalizeTag tag,
        registryRepo ++ ":" ++ normalizeTag tag].filter imageExists).isEmpty = false := by
      cases h : [localRepo ++ ":" ++ normalizeTag tag,
          registryRepo ++ ":" ++ normalizeTag tag].filter imageExists with
      | nil => rw [h] at hmem; cases hmem
      | cons a l => rfl
    rw [cleanSpecificTag_effects_nonempty projectPath localRepo registryRepo tag imageExists
      containersOf cOk iOk hne]
    rcases foldr_flatten_split
      (fun target =>
        (if (containersOf target).isEmpty then []
         else (containersOf target).map (fun c => Effect.removeContainer c (cOk c)))
          ++ [Effect.removeImage target (iOk target)])
      ([localRepo ++ ":" ++ normalizeTag tag,
        registryRepo ++ ":" ++ normalizeTag tag].filter imageExists) target hmem
      with ⟨F₁, F₂, hsplit⟩
    rw [hsplit]
    have hcempty : (containersOf target).isEmpty = false := by
      cases h : containersOf target with
      | nil => exact absurd h hcne
      | cons a l => rfl
    rw [if_neg (by rw [hcempty]; exact Bool.false_ne_true)]
    refine ⟨F₁ ++ (containersOf target).map (fun c => Effect.removeContainer c (cOk c)),
      F₂ ++ [Effect.trackRemove projectPath localRepo (normalizeTag tag)], ?_, ?_⟩
    · simp [List.append_assoc]
    · intro c hc
      exact List.mem_append_right F₁ (List.mem_map_of_mem _ hc)

/-- A concrete selected target with two containers, for the C5 witness. -/
def sampleTargetC5 : ImageToClean :=
  { image := "app:v1", tag := "v1", isTracked := true, containers := ["c1", "c2"] }

/-- Witness for C5: one selected target with two containers. -/
theorem removal_order_containers_before_image_witness :
    (sampleTargetC5 ∈ [sampleTargetC5] ∧ sampleTargetC5.containers ≠ [])
    ∧ ∃ pre post,
        performCleanup "/p" "app" (fun _ => true) (fun _ => true) [sampleTargetC5]
            = pre ++ Effect.removeImage sampleTargetC5.image true :: post
          ∧ ∀ c ∈ sampleTargetC5.containers, Effect.removeContainer c true ∈ pre :=
  ⟨⟨by decide, by decide⟩,
    (removal_order_containers_before_image "/p" "app" "reg/app" "v1" (fun _ => true)
      (fun _ => ["c9"]) (fun _ => true) (fun _ => true) [sampleTargetC5]).1
      sampleTargetC5 (by decide) (by decide)⟩

/-! ### C6: the exclusion-preference round trip -/

/-- C6: for any prior preference store, `saveExcludedTags(p, i, T)` followed
by `getExcludedTags(p, i)` returns exactly `T` when `T` is non-empty; saving
the empty list makes a following `getExcludedTags` return the empty list and
leaves no `(p, i)` entry in the persisted structure. -/
theorem saveExcludedTags_roundtrip (preferences : CleanPreferences)
    (projectPath imageName : String) (excludedTags : List String)
    (hT : excludedTags ≠ []) :
    getExcludedTags (saveExcludedTags preferences projectPath imageName excludedTags)
        projectPath imageName = excludedTags
    ∧ getExcludedTags (saveExcludedTags preferences projectPath imageName [])
        projectPath imageName = []
    ∧ (∀ inner, objLookup (saveExcludedTags preferences projectPath imageName []) projectPath
          = some inner → objLookup inner imageName = none) := by
  have hne : excludedTags.isEmpty = false := by
    cases excludedTags with
    | nil => exact absurd rfl hT
    | cons a l => rfl
  refine ⟨?_, ?_, ?_⟩
  · simp only [saveExcludedTags]
    rw [if_neg (by rw [hne]; exact Bool.false_ne_true)]
    unfold getExcludedTags
    rw [objLookup_objSet_self, Option.getD_some, objLookup_objSet_self, Option.getD_some]
  · simp only [saveExcludedTags]
    rw [if_pos (show ([] : List String).isEmpty = true by rfl)]
    by_cases h2 : (objDelete
        ((objLookup
          (if (objLookup preferences projectPath).isSome = true then preferences
           else objSet preferences projectPath []) projectPath).getD [])
        imageName).isEmpty
    · rw [if_pos h2]
      unfold getExcludedTags
      rw [objLookup_objDelete_self]
      rfl
    · rw [if_neg h2]
      unfold getExcludedTags
      rw [objLookup_objSet_self, Option.getD_some, objLookup_objDelete_self]
      rfl
  · intro inner hinner
    simp only [saveExcludedTags] at hinner
    rw [if_pos (show ([] : List String).isEmpty = true by rfl)] at hinner
    by_cases h2 : (objDelete
        ((objLookup
          (if (objLookup preferences projectPath).isSome = true then preferences
           else objSet preferences projectPath []) projectPath).getD [])
        imageName).isEmpty
    · rw [if_pos h2, objLookup_objDelete_self] at hinner
      cases hinner
    · rw [if_neg h2, objLookup_objSet_self, Option.some_inj] at hinner
      rw [← hinner]
      exact objLookup_objDelete_self _ imageName

/-- Witness for C6 at a concrete store. -/
theorem saveExcludedTags_roundtrip_witness :
    (["v1", "v3"] : List String) ≠ []
    ∧ getExcludedTags (saveExcludedTags [("/q", [("db", ["v9"])])] "/p" "app" ["v1", "v3"])
        "/p" "app" = ["v1", "v3"]
    ∧ getExcludedTags (saveExcludedTags [("/q", [("db", ["v9"])])] "/p" "app" [])
        "/p" "app" = [] :=
  ⟨by decide,
    (saveExcludedTags_roundtrip [("/q", [("db", ["v9"])])] "/p" "app" ["v1", "v3"]
      (by decide)).1,
    (saveExcludedTags_roundtrip [("/q", [("db", ["v9"])])] "/p" "app" ["v1", "v3"]
      (by decide)).2.1⟩

/-! ### C7: explicit-tag mode -/

/-- C7: a tag without a leading `v` is normalized to carry one; the run
resolves to at most the two references `localRepo:vTag` / `registryRepo:vTag`,
keeping exactly those the engine reports as existing; and when neither
exists the command stops with the no-images report — the kept list is empty
and the effect trace is empty: zero container removals, zero image removals,
zero Tracking Store calls. -/
theorem cleanSpecificTag_explicit_mode (projectPath localRepo registryRepo tag : String)
    (imageExists : String → Bool) (containersOf : String → List String)
    (cOk iOk : String → Bool) :
    (jsStartsWith tag "v" = false →
      (cleanSpecificTag projectPath localRepo registryRepo tag imageExists containersOf
        cOk iOk).normalizedTag = "v" ++ tag)
    ∧ (cleanSpecificTag projectPath localRepo registryRepo tag imageExists containersOf
        cOk iOk).existingTargets.length ≤ 2
    ∧ (∀ t ∈ (cleanSpecificTag projectPath localRepo registryRepo tag imageExists containersOf
          cOk iOk).existingTargets,
        imageExists t = true
        ∧ (t = localRepo ++ ":" ++ normalizeTag tag ∨ t = registryRepo ++ ":" ++ normalizeTag tag))
    ∧ (imageExists (localRepo ++ ":" ++ normalizeTag tag) = false →
       imageExists (registryRepo ++ ":" ++ normalizeTag tag) = false →
       (cleanSpecificTag projectPath localRepo registryRepo tag imageExists containersOf
          cOk iOk).existingTargets = []
       ∧ (cleanSpecificTag projectPath localRepo registryRepo tag imageExists containersOf
          cOk iOk).effects = []) := by
  refine ⟨?_, ?_, ?_, ?_⟩
  · intro h
    rw [cleanSpecificTag_normalizedTag]
    unfold normalizeTag
    rw [if_neg (by rw [h]; exact Bool.false_ne_true)]
  · rw [cleanSpecificTag_existingTargets]
    exact List.length_filter_le imageExists _
  · intro t ht
    rw [cleanSpecificTag_existingTargets] at ht
    rcases List.mem_filter.mp ht with ⟨hmem, hex⟩
    refine ⟨hex, ?_⟩
    rcases List.mem_cons.mp hmem with rfl | hmem'
    · exact Or.inl rfl
    · exact Or.inr (List.mem_singleton.mp hmem')
  · intro h1 h2
    have hfil : [localRepo ++ ":" ++ normalizeTag tag,
        registryRepo ++ ":" ++ normalizeTag tag].filter imageExists = [] := by
      rw [List.filter_cons, List.filter_cons]
      rw [h1, h2]
      rfl
    constructor
    · rw [cleanSpecificTag_existingTargets, hfil]
    · exact cleanSpecificTag_effects_empty projectPath localRepo registryRepo tag imageExists
        containersOf cOk iOk (by rw [hfil]; rfl)

/-- Witness for C7 at the spec's scenario: tag `"42"`, no image exists. -/
theorem cleanSpecificTag_explicit_mode_witness :
    jsStartsWith "42" "v" = false
    ∧ (cleanSpecificTag "/p" "app" "reg.example.com/team/app" "42" (fun _ => false)
        (fun _ => ["c1"]) (fun _ => true) (fun _ => true)).normalizedTag = "v" ++ "42"
    ∧ (cleanSpecificTag "/p" "app" "reg.example.com/team/app" "42" (fun _ => false)
        (fun _ => ["c1"]) (fun _ => true) (fun _ => true)).existingTargets = []
    ∧ (cleanSpecificTag "/p" "app" "reg.example.com/team/app" "42" (fun _ => false)
        (fun _ => ["c1"]) (fun _ => true) (fun _ => true)).effects = [] :=
  ⟨by decide,
    (cleanSpecificTag_explicit_mode "/p" "app" "reg.example.com/team/app" "42" (fun _ => false)
      (fun _ => ["c1"]) (fun _ => true) (fun _ => true)).1 (by decide),
    ((cleanSpecificTag_explicit_mode "/p" "app" "reg.example.com/team/app" "42" (fun _ => false)
      (fun _ => ["c1"]) (fun _ => true) (fun _ => true)).2.2.2 (by decide) (by decide)).1,
    ((cleanSpecificTag_explicit_mode "/p" "app" "reg.example.com/team/app" "42" (fun _ => false)
      (fun _ => ["c1"]) (fun _ => true) (fun _ => true)).2.2.2 (by decide) (by decide)).2⟩

/-! ### C8: the staleness sweep -/

/-- Iterating deletions over a snapshot of the entries keeps exactly those
entries whose key is not the key of any stale snapshot entry. -/
theorem foldl_delete_mem (stale : α → Bool) (todo : List (String × α))
    (acc : List (String × α)) (kv : String × α) :
    (kv ∈ todo.foldl (fun acc kv' => if stale kv'.2 then objDelete acc kv'.1 else acc) acc
      ↔ kv ∈ acc ∧ ∀ kv' ∈ todo, stale kv'.2 = true → kv.1 ≠ kv'.1) := by
  induction todo generalizing acc with
  | nil => simp
  | cons kv' rest ih =>
    rw [List.foldl_cons]
    by_cases hs : stale kv'.2
    · rw [if_pos hs, ih, mem_objDelete]
      constructor
      · rintro ⟨⟨h1, h2⟩, h3⟩
        refine ⟨h1, ?_⟩
        intro x hx hstale
        rcases List.mem_cons.mp hx with rfl | hx'
        · exact h2
        · exact h3 x hx' hstale
      · rintro ⟨h1, h2⟩
        exact ⟨⟨h1, h2 kv' (List.mem_cons_self kv' rest) hs⟩,
          fun x hx hstale => h2 x (List.mem_cons_of_mem kv' hx) hstale⟩
    · rw [if_neg hs, ih]
      constructor
      · rintro ⟨h1, h3⟩
        refine ⟨h1, ?_⟩
        intro x hx hstale
        rcases List.mem_cons.mp hx with rfl | hx'
        · exact absurd hstale hs
        · exact h3 x hx' hstale
      · rintro ⟨h1, h2⟩
        exact ⟨h1, fun x hx hstale => h2 x (List.mem_cons_of_mem kv' hx) hstale⟩

/-- C8: on a store with distinct keys (as the JSON object guarantees), the
staleness sweep keeps exactly the entries that are not stale — an entry is
deleted iff its build timestamp parses and is older than `now - 7 days`, and
every other entry (including ones with unparseable timestamps, whose NaN
comparison is false) remains unchanged. -/
theorem cleanupStaleImages_spec (dateParse : String → Option Int) (nowMs : Int)
    (store : List (String × TrackedImage)) (h : (store.map Prod.fst).Nodup) :
    ∀ kv : String × TrackedImage,
      (kv ∈ cleanupStaleImages dateParse nowMs store
        ↔ kv ∈ store ∧ isStaleEntry dateParse nowMs kv.2 = false) := by
  intro kv
  unfold cleanupStaleImages
  rw [foldl_delete_mem (isStaleEntry dateParse nowMs) store store kv]
  constructor
  · rintro ⟨h1, h2⟩
    refine ⟨h1, ?_⟩
    by_cases hs : isStaleEntry dateParse nowMs kv.2
    · exact absurd rfl (h2 kv h1 hs)
    · exact Bool.of_not_eq_true hs
  · rintro ⟨h1, h2⟩
    refine ⟨h1, ?_⟩
    intro kv' hkv' hstale hkey
    have : kv = kv' := List.inj_on_of_nodup_map h h1 hkv' hkey
    rw [this] at h2
    rw [h2] at hstale
    exact Bool.false_ne_true hstale

/-- Sample entries for the C8 witness: one 9 days old, one 2 days old
relative to `now` = 2024-01-10T00:00:00Z (= 1704844800000 ms). -/
def staleSampleEntry : TrackedImage :=
  { imageName := "app", tag := "v1", fullImageName := "app:v1", projectPath := "/p",
    builtAt := "2024-01-01T00:00:00.000Z" }

def freshSampleEntry : TrackedImage :=
  { imageName := "app", tag := "v2", fullImageName := "app:v2", projectPath := "/p",
    builtAt := "2024-01-08T00:00:00.000Z" }

/-- Witness for C8: a two-entry store, one stale entry (deleted), one fresh
entry (kept). -/
theorem cleanupStaleImages_spec_witness :
    (([("/p:app:v1", staleSampleEntry), ("/p:app:v2", freshSampleEntry)].map Prod.fst).Nodup)
    ∧ ∀ kv : String × TrackedImage,
      (kv ∈ cleanupStaleImages jsDateParse 1704844800000
          [("/p:app:v1", staleSampleEntry), ("/p:app:v2", freshSampleEntry)]
        ↔ kv ∈ [("/p:app:v1", staleSampleEntry), ("/p:app:v2", freshSampleEntry)]
          ∧ isStaleEntry jsDateParse 1704844800000 kv.2 = false) :=
  ⟨by decide,
    cleanupStaleImages_spec jsDateParse 1704844800000
      [("/p:app:v1", staleSampleEntry), ("/p:app:v2", freshSampleEntry)] (by decide)⟩

/-! ### C9: tracking-store round trip -/

theorem objSet_self_mem (m : List (String × α)) (k : String) (v : α) :
    (k, v) ∈ objSet m k v := by
  unfold objSet
  by_cases h : objHas m k
  · rw [if_pos h]
    rcases List.mem_map.mp ((objHas_iff_mem_map_fst m k).mp h) with ⟨kv, hkv, hfst⟩
    refine List.mem_map.mpr ⟨kv, hkv, ?_⟩
    rw [if_pos hfst]
  · rw [if_neg h]
    exact List.mem_append_right m (List.mem_singleton.mpr rfl)

theorem jsStartsWith_append (pre t : String) : jsStartsWith (pre ++ t) pre = true := by
  unfold jsStartsWith
  rw [String.data_append]
  exact List.isPrefixOf_iff_prefix.mpr (List.prefix_append pre.data t.data)

/-- C9: for a `TrackedImage` whose project path and image name contain no
colon (the precondition that keeps the ':'-joined composite key unambiguous),
`trackImage` followed by `getTrackedImage` on the same identity triple
returns exactly the stored record, and `getTrackedImages` for the pair
includes it.  (The lookups hold by exact key equality; the precondition is
what makes the key unique to the triple.) -/
theorem trackImage_roundtrip (dateParse : String → Option Int)
    (store : List (String × TrackedImage)) (e : TrackedImage)
    (_hp : ':' ∉ e.projectPath.data) (_hi : ':' ∉ e.imageName.data) :
    getTrackedImage (trackImage store e) e.projectPath e.imageName e.tag = some e
    ∧ e ∈ getTrackedImages dateParse (trackImage store e) e.projectPath e.imageName := by
  constructor
  · unfold getTrackedImage trackImage
    exact objLookup_objSet_self store _ e
  · unfold getTrackedImages trackImage
    rw [mem_jsSort]
    refine List.mem_map.mpr
      ⟨(trackKey e.projectPath e.imageName e.tag, e), List.mem_filter.mpr ⟨?_, ?_⟩, rfl⟩
    · exact objSet_self_mem store _ e
    · show jsStartsWith (trackKey e.projectPath e.imageName e.tag)
        (e.projectPath ++ ":" ++ e.imageName ++ ":") = true
      have hk : trackKey e.projectPath e.imageName e.tag
          = (e.projectPath ++ ":" ++ e.imageName ++ ":") ++ e.tag := by
        unfold trackKey
        rw [String.append_assoc]
      rw [hk]
      exact jsStartsWith_append _ e.tag

/-- A sample record for the C9 witness. -/
def sampleTrackedC9 : TrackedImage :=
  { imageName := "app", tag := "v1", fullImageName := "app:v1", projectPath := "/p",
    builtAt := "2024-01-02T00:00:00.000Z" }

/-- Witness for C9 on an initially one-entry store. -/
theorem trackImage_roundtrip_witness :
    (':' ∉ sampleTrackedC9.projectPath.data
      ∧ ':' ∉ sampleTrackedC9.imageName.data)
    ∧ getTrackedImage (trackImage [("/q:db:v9", freshSampleEntry)] sampleTrackedC9)
        sampleTrackedC9.projectPath sampleTrackedC9.imageName sampleTrackedC9.tag
        = some sampleTrackedC9
    ∧ sampleTrackedC9 ∈ getTrackedImages jsDateParse
        (trackImage [("/q:db:v9", freshSampleEntry)] sampleTrackedC9)
        sampleTrackedC9.projectPath sampleTrackedC9.imageName :=
  ⟨⟨by decide, by decide⟩,
    (trackImage_roundtrip jsDateParse [("/q:db:v9", freshSampleEntry)] sampleTrackedC9
      (by decide) (by decide)).1,
    (trackImage_roundtrip jsDateParse [("/q:db:v9", freshSampleEntry)] sampleTrackedC9
      (by decide) (by decide)).2⟩

/-! ### C10: the tag parsed from the live image listing -/

/-- C10: every entry the live-image listing pipeline constructs has as `tag`
the second ':'-separated component of its reference string, with `latest` as
the JS-falsy default (absent or empty component).  Hence for a colon-free
repository name the tag field is the image's actual tag (`app:v1` gives
`v1`), while a repository name that itself contains ':' — a registry host
with a port — makes the tag field the port-and-path fragment, not the
reference's tag portion (`host:5000/app:v1` gives `5000/app`, not `v1`). -/
theorem getAllProjectImages_tag_parsing :
    (∀ stdout : String, ∀ d ∈ parseImagesOutput stdout,
      d.tag = jsOrS (splitOnChar ':' d.image)[1]? "latest")
    ∧ (parseImageLine "app:v1\t10MB\t2 days ago").image = "app:v1"
    ∧ (parseImageLine "app:v1\t10MB\t2 days ago").tag = "v1"
    ∧ (parseImageLine "host:5000/app:v1\t10MB\t2 days ago").image = "host:5000/app:v1"
    ∧ (parseImageLine "host:5000/app:v1\t10MB\t2 days ago").tag = "5000/app"
    ∧ (parseImageLine "host:5000/app:v1\t10MB\t2 days ago").tag ≠ "v1" := by
  refine ⟨?_, by decide, by decide, by decide, by decide, by decide⟩
  intro stdout d hd
  unfold parseImagesOutput at hd
  rcases List.mem_map.mp hd with ⟨line, _, rfl⟩
  rfl

/-- Witness for C10's universally quantified part on a concrete listing. -/
theorem getAllProjectImages_tag_parsing_witness :
    ∀ d ∈ parseImagesOutput "app:v1\t10MB\t2 days ago\napp:<none>\t5MB\t3 days ago\n",
      d.tag = jsOrS (splitOnChar ':' d.image)[1]? "latest" :=
  (getAllProjectImages_tag_parsing).1 "app:v1\t10MB\t2 days ago\napp:<none>\t5MB\t3 days ago\n"
